import Mathlib

/-!
Shallow embedding of `app.py` (moodle-csv-user-sync) and proofs about it.

Conventions used throughout:
* Python dicts with string keys/values are embedded as association lists
  (`Dict := List (String × String)`); CSV rows and user records are such dicts.
* Python's Unicode-aware character predicates (`str.isalnum`, `str.isalpha`,
  `str.lower`, `unicodedata` NFD decomposition) are modelled exactly on the
  ASCII range and on a small explicit table of non-ASCII code points that are
  exercised by the development (for example U+00E9 "e with acute", which NFD
  decomposes to "e" plus the combining acute accent U+0301, and U+00E6 "ae",
  which has no decomposition and counts as alphanumeric for Python).
* The remote Moodle web service is modelled as an oracle environment: each
  kind of call gets a response datatype whose constructors are exactly the
  response shapes the code distinguishes (parsed-JSON shapes, a
  `requests.RequestException` transport failure which `ws_post` can raise, and
  where relevant a non-request exception such as a `ValueError` from `int()`).
-/

namespace App

/-- Single-quote character (U+0027), used when building messages that quote
usernames the way the Python f-strings do. -/
def sq : String := String.singleton (Char.ofNat 39)

/-- Double-quote character (U+0022). -/
def dq : Char := Char.ofNat 34

/-- The UTF-8 byte-order-mark code point U+FEFF. -/
def bomChar : Char := Char.ofNat 0xFEFF

/-- ASCII view of Python's `str.lower` on one character: ASCII letters are
mapped to lower case; of the non-ASCII code points used in this development,
U+00C9 and U+00C6 map to U+00E9 and U+00E6; everything else is unchanged
(none of the modelled code points has a multi-character lower case). -/
def pyLowerChar (c : Char) : Char :=
  if 'A' ≤ c ∧ c ≤ 'Z' then Char.ofNat (c.toNat + 32)
  else if c.toNat = 0xC9 then Char.ofNat 0xE9
  else if c.toNat = 0xC6 then Char.ofNat 0xE6
  else c

/-- Python's `str.upper` on one character, same modelling note as
`pyLowerChar`. -/
def pyUpperChar (c : Char) : Char :=
  if 'a' ≤ c ∧ c ≤ 'z' then Char.ofNat (c.toNat - 32)
  else if c.toNat = 0xE9 then Char.ofNat 0xC9
  else if c.toNat = 0xE6 then Char.ofNat 0xC6
  else c

/-- `str.lower` on a whole string. -/
def pyLowerStr (s : String) : String := ⟨s.data.map pyLowerChar⟩

/-- Python's `str.isalpha` per character: ASCII letters plus the non-ASCII
letters in the modelled table (U+00E9, U+00C9, U+00E6, U+00C6). -/
def pyIsAlpha (c : Char) : Bool :=
  (('a' ≤ c && c ≤ 'z') || ('A' ≤ c && c ≤ 'Z')
    || c.toNat = 0xE9 || c.toNat = 0xC9 || c.toNat = 0xE6 || c.toNat = 0xC6)

/-- Python's `str.isalnum` per character: letters (as in `pyIsAlpha`) or
ASCII digits.  Note that Python's predicate accepts non-ASCII alphanumerics,
which is why `ascii_slug` below can emit characters outside `[a-z0-9]`. -/
def pyIsAlnum (c : Char) : Bool :=
  pyIsAlpha c || ('0' ≤ c && c ≤ '9')

/-- Whitespace as recognised by Python's `str.strip`/`str.split`/regex `\s`
(modelled on the ASCII range). -/
def pySpace (c : Char) : Bool :=
  c = ' ' || c = Char.ofNat 9 || c = Char.ofNat 10 || c = Char.ofNat 13
    || c = Char.ofNat 11 || c = Char.ofNat 12

/-- Python `str.strip()` with no arguments. -/
def pyStrip (s : String) : String :=
  ⟨(s.data.dropWhile (fun c => pySpace c)).reverse.dropWhile (fun c => pySpace c) |>.reverse⟩

/-- Accumulator pass behind `pySplitWs`; `cur` holds the current word
reversed. -/
def splitWsGo (cur : List Char) : List Char → List (List Char)
  | [] => if cur = [] then [] else [cur.reverse]
  | c :: rest =>
    if pySpace c then
      if cur = [] then splitWsGo [] rest else cur.reverse :: splitWsGo [] rest
    else splitWsGo (c :: cur) rest

/-- Python `str.split()` with no arguments: split on whitespace runs and
discard empty pieces. -/
def pySplitWs (s : String) : List String :=
  (splitWsGo [] s.data).map (fun l => (⟨l⟩ : String))

/-- Python `sep.join(parts)`. -/
def pyJoin (sep : String) : List String → String
  | [] => ""
  | [w] => w
  | w :: ws => w ++ sep ++ pyJoin sep ws

/-- One step list of `str.replace`: scan left to right, replacing
non-overlapping occurrences of `pat` (always nonempty here); fuelled by the
input length, which is enough since every step consumes at least one
character. -/
def replaceGo (pat rep : List Char) : Nat → List Char → List Char
  | 0, l => l
  | _ + 1, [] => []
  | fuel + 1, c :: rest =>
    if pat.isPrefixOf (c :: rest) then
      rep ++ replaceGo pat rep fuel ((c :: rest).drop pat.length)
    else c :: replaceGo pat rep fuel rest

/-- Python `s.replace(pat, rep)`. -/
def pyReplace (s pat rep : String) : String :=
  ⟨replaceGo pat.data rep.data s.data.length s.data⟩

/-- Python `s.startswith(pre)`. -/
def pyStartsWith (s pre : String) : Bool := pre.data.isPrefixOf s.data

/-- Keep the characters of a string satisfying `p` (Python generator-join
filtering idiom). -/
def strFilter (p : Char → Bool) (s : String) : String := ⟨s.data.filter p⟩

/-- NFD decomposition of one character (`unicodedata.normalize("NFD", ·)`),
modelled on the table of code points used here: the accented letters
decompose into the base letter followed by the combining accent U+0301;
ASCII and the other modelled code points are their own decomposition. -/
def nfdChar (c : Char) : List Char :=
  if c.toNat = 0xE9 then ['e', Char.ofNat 0x301]
  else if c.toNat = 0xC9 then ['E', Char.ofNat 0x301]
  else [c]

/-- Is the character a combining mark (Unicode category `Mn`)?  Modelled as
membership in the combining-diacritics block U+0300–U+036F, which contains
every mark produced by `nfdChar`. -/
def isMn (c : Char) : Bool := 0x300 ≤ c.toNat && c.toNat ≤ 0x36F

/-- Decimal digit character for `d < 10`. -/
def decDigit (d : Nat) : Char :=
  match d with
  | 0 => '0' | 1 => '1' | 2 => '2' | 3 => '3' | 4 => '4'
  | 5 => '5' | 6 => '6' | 7 => '7' | 8 => '8' | _ => '9'

/-- Fuelled most-significant-first decimal digit expansion; `pyStr` always
supplies enough fuel. -/
def decDigitsAux : Nat → Nat → List Char
  | 0, _ => []
  | fuel + 1, n =>
    if n < 10 then [decDigit n]
    else decDigitsAux fuel (n / 10) ++ [decDigit (n % 10)]

/-- Python `str(n)` / f-string formatting of a natural number. -/
def pyStr (n : Nat) : String := ⟨decDigitsAux (n + 1) n⟩

/-- Numeric value of a digit list, used to invert `decDigitsAux`. -/
def decVal (l : List Char) : Nat := l.foldl (fun a c => a * 10 + (c.toNat - 48)) 0

theorem decVal_append (l : List Char) (c : Char) :
    decVal (l ++ [c]) = decVal l * 10 + (c.toNat - 48) := by
  simp [decVal, List.foldl_append]

theorem decVal_decDigit (d : Nat) (hd : d < 10) :
    decVal [decDigit d] = d := by
  interval_cases d <;> decide

theorem decDigit_toNat (d : Nat) (hd : d < 10) :
    (decDigit d).toNat - 48 = d := by
  interval_cases d <;> decide

theorem decDigitsAux_spec (fuel : Nat) :
    ∀ n : Nat, n < 10 ^ fuel → decVal (decDigitsAux fuel n) = n := by
  induction fuel with
  | zero =>
    intro n hn
    simp at hn
    simp [hn, decDigitsAux, decVal]
  | succ f ih =>
    intro n hn
    by_cases h10 : n < 10
    · simp [decDigitsAux, h10, decVal_decDigit n h10]
    · have hdiv : n / 10 < 10 ^ f := by
        rw [Nat.div_lt_iff_lt_mul (by norm_num)]
        calc n < 10 ^ (f + 1) := hn
        _ = 10 ^ f * 10 := by ring
      rw [decDigitsAux]
      simp only [h10, if_false]
      rw [decVal_append, ih (n / 10) hdiv, decDigit_toNat (n % 10) (Nat.mod_lt _ (by norm_num))]
      omega

theorem lt_ten_pow_succ (n : Nat) : n < 10 ^ (n + 1) := by
  calc n < 10 ^ n := Nat.lt_pow_self (by norm_num) n
  _ ≤ 10 ^ (n + 1) := Nat.pow_le_pow_right (by norm_num) (Nat.le_succ n)

theorem decVal_pyStr (n : Nat) : decVal (pyStr n).data = n := by
  exact decDigitsAux_spec (n + 1) n (lt_ten_pow_succ n)

theorem pyStr_injective : Function.Injective pyStr := by
  intro a b h
  have : (pyStr a).data = (pyStr b).data := by rw [h]
  have := congrArg decVal this
  rwa [decVal_pyStr, decVal_pyStr] at this

theorem decDigitsAux_ne_nil (fuel n : Nat) : decDigitsAux (fuel + 1) n ≠ [] := by
  rw [decDigitsAux]
  by_cases h : n < 10 <;> simp [h]

theorem pyStr_ne_empty (n : Nat) : pyStr n ≠ "" := by
  intro h
  have : (pyStr n).data = ([] : List Char) := congrArg String.data h
  exact decDigitsAux_ne_nil n n this

/-! ### Dictionaries (Python dicts with string keys and values) -/

/-- A Python dict with string keys and string values, as an ordered
association list (insertion order, unique keys in every dict the program
builds). -/
abbrev Dict := List (String × String)

/-- `d.get(k)` (`None` when absent). -/
def dget (r : Dict) (k : String) : Option String :=
  match r with
  | [] => none
  | (k2, v) :: rest => if k2 = k then some v else dget rest k

/-- `d.get(k, default)`. -/
def dgetD (r : Dict) (k d : String) : String := (dget r k).getD d

/-- `d[k] = v`: overwrite in place, or append a new binding. -/
def dset (r : Dict) (k v : String) : Dict :=
  match r with
  | [] => [(k, v)]
  | (k2, v2) :: rest => if k2 = k then (k2, v) :: rest else (k2, v2) :: dset rest k v

/-- Truthiness of an optional string (`None` and `""` are falsy). -/
def dtruthy (o : Option String) : Bool := o.getD "" != ""

/-- Keys of a dict in order. -/
def dkeys (r : Dict) : List String := r.map (·.1)

/-! ### Name / username helpers (`app.py` lines 53–123) -/

/-- `remove_diacritics`: NFD-normalise, then drop combining marks. -/
def remove_diacritics (s : String) : String :=
  ⟨(s.data.flatMap nfdChar).filter (fun c => !isMn c)⟩

/-- `ascii_slug`: strip diacritics, lower-case, keep only the characters
Python's `str.isalnum` accepts. -/
def ascii_slug (s : String) : String :=
  strFilter pyIsAlnum (pyLowerStr (remove_diacritics s))

/-- Python `str.capitalize()`: first character upper-cased, rest
lower-cased. -/
def capitalizeWord (w : String) : String :=
  match w.data with
  | [] => ""
  | c :: rest => ⟨pyUpperChar c :: rest.map pyLowerChar⟩

/-- `cap_words`: trim, lower, capitalize each whitespace-separated word. -/
def cap_words (s : String) : String :=
  let s := pyLowerStr (pyStrip s)
  if s = "" then ""
  else pyJoin " " ((pySplitWs s).map capitalizeWord)

/-- `t.split(" ", 1)[1]`: everything after the first space
(only called when a space is present). -/
def splitFirstSpaceRest (t : String) : String :=
  ⟨(t.data.dropWhile (fun c => c ≠ ' ')).drop 1⟩

/-- `apply_replacements`: drop a leading "dr"/"dr." honorific, rewrite
"syed "/"Syed "/"syeda "/"Syeda " prefixes to "s ", collapse whitespace. -/
def apply_replacements (text : String) : String :=
  let t := pyStrip text
  let t :=
    if pyStartsWith (pyLowerStr t) "dr. " || pyStartsWith (pyLowerStr t) "dr " then
      splitFirstSpaceRest t
    else t
  let t := pyReplace (pyReplace (pyReplace (pyReplace t "syed " "s ") "Syed " "s ")
    "syeda " "s ") "Syeda " "s "
  pyJoin " " (pySplitWs t)

/-- Strip leading and trailing quote characters (`str.strip("\x22\x27")`). -/
def stripQuotes (s : String) : String :=
  ⟨((s.data.dropWhile (fun c => c = dq || c = Char.ofNat 39)).reverse.dropWhile
      (fun c => c = dq || c = Char.ofNat 39)).reverse⟩

/-- `clean_email`: remove spaces, trim, strip quotes, lower-case. -/
def clean_email (s : String) : String :=
  pyLowerStr (stripQuotes (pyStrip ⟨s.data.filter (fun c => c ≠ ' ')⟩))

/-- Header-key normalisation inside `normalize_row_keys`: drop the BOM, trim,
lower-case, keep alphabetic characters only. -/
def norm_key (k : String) : String :=
  strFilter pyIsAlpha (pyLowerStr (pyStrip (pyReplace k (String.singleton bomChar) "")))

/-- Find the original dict key whose normalisation equals one of the
candidate names; candidates are tried in order, and for each the dict is
read with Python's last-wins dict-comprehension semantics. -/
def findCol (r : Dict) (cands : List String) : Option String :=
  cands.findSome? (fun c => (dkeys r).reverse.find? (fun k => decide (norm_key k = c)))

/-- The `ValueError` message raised when required columns are missing. -/
def requiredColsMsg (r : Dict) : String :=
  "Missing required columns. Expected at least " ++ sq ++ "First Name" ++ sq ++ ", "
    ++ sq ++ "Last Name" ++ sq ++ ", " ++ sq ++ "Email Address" ++ sq ++ ". Found: "
    ++ pyJoin ", " (dkeys r)

/-- `normalize_row_keys`: fuzzy-match the first/last/email (and optional
course-id) columns, or fail with the `ValueError` message. -/
def normalize_row_keys (r : Dict) : Except String Dict :=
  let fnkey := findCol r ["firstname", "givenname", "forename", "first"]
  let lnkey := findCol r ["lastname", "surname", "familyname", "last"]
  let emkey := findCol r ["emailaddress", "email", "mail", "emailid", "emailaddr", "eaddress"]
  let cikey := findCol r ["courseids", "courseid", "course"]
  match fnkey, lnkey, emkey with
  | some fk, some lk, some ek =>
    let out : Dict := [("First Name", dgetD r fk ""), ("Last Name", dgetD r lk ""),
      ("Email Address", dgetD r ek "")]
    .ok (match cikey with
      | some ck => out ++ [("Course IDs", dgetD r ck "")]
      | none => out)
  | _, _, _ => .error (requiredColsMsg r)

/-- Python `a or b` on strings (empty string is falsy). -/
def pyOr (a b : String) : String := if a = "" then b else a

/-- `email.split("@")[0]`. -/
def emailLocalPart (s : String) : String := ⟨s.data.takeWhile (fun c => c ≠ '@')⟩

/-- The candidate at suffix `n` in the sequence `base`, `base1`, `base2`, …
(`candidate = base if suffix == 0 else f"{base}{suffix}"`). -/
def candAt (base : String) (n : Nat) : String :=
  if n = 0 then base else base ++ pyStr n

/-- The `while candidate in used` loop of `make_usernames`, with explicit
fuel; `make_usernames` passes fuel `used.length + 1`, which
`bump_candidate_free` below proves is always enough for the loop to exit
exactly as the unbounded Python loop does. -/
def bump_candidate (base : String) (used : List String) : Nat → Nat → Nat
  | 0, s => s
  | fuel + 1, s => if candAt base s ∈ used then bump_candidate base used fuel (s + 1) else s

/-- An entirely blank row (`not r or all(... == "")`), silently dropped. -/
def blankRow (r : Dict) : Bool :=
  r.isEmpty || r.all (fun p => pyStrip p.2 == "")

/-- The record `make_usernames` appends for one row. -/
def mkOutRow (first last email course_ids candidate : String) : Dict :=
  [("First Name", first), ("Last Name", last), ("Email Address", email),
   ("Username", candidate), ("Password", ""),
   ("Course IDs", course_ids),
   ("Status", ""), ("Enrol Status", ""), ("Suspend Status", ""),
   ("Existing First Name", ""), ("Existing Last Name", ""), ("Existing Username", ""),
   ("Existing Email", ""), ("Existing ID", "")]

/-- Lookup in the per-batch `counts` map. -/
def lookupNat (l : List (String × Nat)) (k : String) : Option Nat :=
  match l with
  | [] => none
  | (k2, v) :: rest => if k2 = k then some v else lookupNat rest k

/-- Update the per-batch `counts` map. -/
def setNat (l : List (String × Nat)) (k : String) (v : Nat) : List (String × Nat) :=
  match l with
  | [] => [(k, v)]
  | (k2, v2) :: rest => if k2 = k then (k2, v) :: rest else (k2, v2) :: setNat rest k v

/-- Main loop of `make_usernames` over the input rows, carrying the
per-batch suffix counter `counts` and the set `used` of claimed usernames.
A `ValueError` from `normalize_row_keys` propagates (`Except.error`). -/
def make_usernames_go (counts : List (String × Nat)) (used : List String) :
    List Dict → Except String (List Dict)
  | [] => .ok []
  | r :: rs =>
    if blankRow r then make_usernames_go counts used rs
    else
      match normalize_row_keys r with
      | .error e => .error e
      | .ok base_row =>
        let first := cap_words (dgetD base_row "First Name" "")
        let last := cap_words (dgetD base_row "Last Name" "")
        let email := clean_email (dgetD base_row "Email Address" "")
        let course_ids := pyStrip (dgetD base_row "Course IDs" "")
        let username_source :=
          apply_replacements (dgetD base_row "First Name" "" ++ dgetD base_row "Last Name" "")
        let base := pyOr (ascii_slug username_source) (pyOr (ascii_slug (emailLocalPart email)) "user")
        let suffix0 := (lookupNat counts base).getD 0
        let suffix := bump_candidate base used (used.length + 1) suffix0
        let candidate := candAt base suffix
        match make_usernames_go (setNat counts base suffix) (candidate :: used) rs with
        | .error e => .error e
        | .ok out => .ok (mkOutRow first last email course_ids candidate :: out)

/-- `make_usernames`. -/
def make_usernames (rows : List Dict) : Except String (List Dict) :=
  make_usernames_go [] [] rows

/-- The usernames of a list of produced records. -/
def usernamesOf (out : List Dict) : List String := out.map (fun r => dgetD r "Username" "")

/-! ### CSV download (`FIELDNAMES`, `rows_to_csv_bytes`) and re-parsing -/

/-- Carriage return. -/
def CR : Char := Char.ofNat 13

/-- Line feed. -/
def LF : Char := Char.ofNat 10

/-- The fixed CSV/table column list. -/
def FIELDNAMES : List String :=
  ["First Name", "Last Name", "Email Address", "Username", "Password",
   "Course IDs",
   "Status", "Enrol Status", "Suspend Status",
   "Existing First Name", "Existing Last Name", "Existing Username", "Existing Email",
   "Existing ID"]

/-- `csv` module `QUOTE_MINIMAL`: a field is quoted iff it contains the
delimiter, the quote character, or a line-terminator character. -/
def csvNeedsQuote (s : String) : Bool :=
  s.data.any (fun c => c = ',' || c = dq || c = CR || c = LF)

/-- Double every quote character (the `csv` module's quote escaping). -/
def csvEscape (l : List Char) : List Char :=
  l.flatMap (fun c => if c = dq then [dq, dq] else [c])

/-- Serialise one field. -/
def csvField (s : String) : String :=
  if csvNeedsQuote s then ⟨dq :: (csvEscape s.data ++ [dq])⟩ else s

/-- Serialise one record: fields joined by `,`, terminated by CRLF (the
`csv.writer` default dialect). -/
def csvLineChars (fields : List String) : List Char :=
  match fields with
  | [] => [CR, LF]
  | [f] => (csvField f).data ++ [CR, LF]
  | f :: rest => (csvField f).data ++ ',' :: csvLineChars rest

/-- The values `DictWriter` writes for a record: each of `FIELDNAMES` looked
up in the dict, with the writer's `restval` default `""` for a missing key
(`extrasaction="ignore"` drops everything else). -/
def rowFields (r : Dict) : List String := FIELDNAMES.map (fun f => dgetD r f "")

/-- `rows_to_csv_bytes`, at the text level (the final UTF-8 encoding is
I/O): BOM, header row, then one line per record. -/
def rows_to_csv_text (rows : List Dict) : String :=
  ⟨bomChar :: (csvLineChars FIELDNAMES ++ (rows.map (fun r => csvLineChars (rowFields r))).flatten)⟩

/-- Content of a quoted CSV field: scan to the closing quote, undoubling
escaped quotes; returns the field and the unconsumed rest. -/
def parseQuoted : List Char → List Char × List Char
  | [] => ([], [])
  | c :: rest =>
    if c = dq then
      match rest with
      | [] => ([], [])
      | c2 :: rest2 =>
        if c2 = dq then
          let p := parseQuoted rest2
          (dq :: p.1, p.2)
        else ([], c2 :: rest2)
    else
      let p := parseQuoted rest
      (c :: p.1, p.2)

/-- Does this character end an unquoted field? -/
def isFieldEnd (c : Char) : Bool := c = ',' || c = CR || c = LF

/-- Parse one CSV field (quoted or not). -/
def parseField (l : List Char) : List Char × List Char :=
  match l with
  | [] => ([], [])
  | c :: rest =>
    if c = dq then parseQuoted rest
    else (l.takeWhile (fun c => !isFieldEnd c), l.dropWhile (fun c => !isFieldEnd c))

/-- Parse one CSV record (fields up to and including the line terminator);
fuelled — one unit of fuel per field is enough. -/
def parseRecordAux : Nat → List Char → List String × List Char
  | 0, l => ([], l)
  | fuel + 1, l =>
    let p := parseField l
    match p.2 with
    | [] => ([(⟨p.1⟩ : String)], [])
    | c :: r2 =>
      if c = ',' then
        let q := parseRecordAux fuel r2
        ((⟨p.1⟩ : String) :: q.1, q.2)
      else if c = CR then
        match r2 with
        | [] => ([(⟨p.1⟩ : String)], [])
        | c2 :: r3 => if c2 = LF then ([(⟨p.1⟩ : String)], r3) else ([(⟨p.1⟩ : String)], c2 :: r3)
      else ([(⟨p.1⟩ : String)], r2)

/-- Parse a CSV document into records; fuelled — one unit per record. -/
def parseCsvAux : Nat → List Char → List (List String)
  | 0, _ => []
  | fuel + 1, l =>
    match l with
    | [] => []
    | c :: rest =>
      let p := parseRecordAux ((c :: rest).length + 1) (c :: rest)
      p.1 :: parseCsvAux fuel p.2

/-- Strip a leading byte-order mark (decoding with `utf-8-sig`). -/
def stripBom (s : String) : String :=
  match s.data with
  | c :: rest => if c = bomChar then ⟨rest⟩ else s
  | [] => s

/-- Re-parse a CSV document (the `csv.reader` default dialect). -/
def parseCsv (s : String) : List (List String) :=
  parseCsvAux (s.data.length + 1) s.data

/-! ### Validation (`EMAIL_RE`, `validate_row`) and course-id parsing -/

/-- Decidable rendering of `re.match(r"^[^@\s]+@[^@\s]+\.[^@\s]+$", s)`:
there is exactly one `@`; the (nonempty) parts before and after it contain
no whitespace (no `@` either, by the uniqueness of `@`); and the part after
the `@` contains a dot that is neither its first nor its last character, so
that it splits as `[^@\s]+ "." [^@\s]+`. -/
def EMAIL_RE_match (s : String) : Bool :=
  let cs := s.data
  let a := cs.takeWhile (fun c => c ≠ '@')
  let b := (cs.dropWhile (fun c => c ≠ '@')).drop 1
  decide (a ≠ []) && decide (b ≠ []) && (cs.count '@' == 1)
    && cs.all (fun c => !pySpace c) && (b.drop 1).dropLast.contains '.'

/-- A character allowed by the username pattern `[a-z0-9._-]`. -/
def usernameChar (c : Char) : Bool :=
  ('a' ≤ c && c ≤ 'z') || ('0' ≤ c && c ≤ '9') || c = '.' || c = '_' || c = '-'

/-- `validate_row`: `None` when the row passes, otherwise the reason. -/
def validate_row (u : Dict) : Option String :=
  let un := pyLowerStr (pyStrip (dgetD u "Username" ""))
  let fn := pyStrip (dgetD u "First Name" "")
  let ln := pyStrip (dgetD u "Last Name" "")
  let em := pyLowerStr (pyStrip (dgetD u "Email Address" ""))
  if un = "" ∨ fn = "" ∨ ln = "" ∨ em = "" then some "Missing required field(s)"
  else if ¬ EMAIL_RE_match em then some "Invalid email format"
  else if 100 < un.length then some "Username too long (>100)"
  else if ¬ (un.data ≠ [] ∧ un.data.all usernameChar) then
    some "Username has disallowed characters"
  else none

/-- ASCII decimal digit. -/
def isDigitCh (c : Char) : Bool := '0' ≤ c && c ≤ '9'

/-- Maximal runs of decimal digits (`re.findall(r"\d+", ·)`), with an
accumulator holding the current run reversed. -/
def digitRunsGo (cur : List Char) : List Char → List (List Char)
  | [] => if cur = [] then [] else [cur.reverse]
  | c :: rest =>
    if isDigitCh c then digitRunsGo (c :: cur) rest
    else if cur = [] then digitRunsGo [] rest
    else cur.reverse :: digitRunsGo [] rest

/-- All maximal digit runs of a string. -/
def digitRuns (l : List Char) : List (List Char) := digitRunsGo [] l

/-- Order-preserving deduplication with a `seen` set. -/
def dedupPreserve (seen : List Nat) : List Nat → List Nat
  | [] => []
  | x :: xs => if x ∈ seen then dedupPreserve seen xs else x :: dedupPreserve (x :: seen) xs

/-- `parse_course_ids`: extract digit runs as integers, deduplicate
preserving first-occurrence order. -/
def parse_course_ids (value : String) : List Nat :=
  dedupPreserve [] ((digitRuns value.data).map decVal)

/-! ### Remote directory client model

Every web-service call is modelled by a response datatype whose
constructors are exactly the response shapes the code distinguishes.
`reqErr` stands for a `requests.RequestException` raised inside `ws_post`
(transport failure, non-2xx status, or an unparsable JSON body — with an
unpinned modern `requests`, `Response.json()` raises
`requests.exceptions.JSONDecodeError`, a `RequestException` subclass).
`strong_password` draws from `random`/`secrets`, so it is modelled as an
oracle string supplied by the environment. -/

/-- One element of the JSON list answered by a username lookup: a user
record whose `username` value is a string (or absent — `None` models the
`.get` default `""` path), a record whose `username` value is not a string
(so `.lower()` raises `AttributeError`), or a non-dict element. -/
inductive JEntry where
  | urec (username : Option String)
  | badUsername
  | nonDict
deriving DecidableEq

/-- Response to one `core_user_get_users_by_field` username probe. -/
inductive ProbeResult where
  | reqErr
  | nonList
  | list (xs : List JEntry)
deriving DecidableEq

/-- `moodle_get_users_by_field` for the probe: a `RequestException` is
caught and yields `[]`, a non-list JSON value yields `[]`. -/
def users_by_field_result : ProbeResult → List JEntry
  | .reqErr => []
  | .nonList => []
  | .list xs => xs

/-- The short-circuiting `any(...)` inside `moodle_username_exists`:
`Except.error` models an `AttributeError` escaping from `.lower()` on a
non-string `username` value. -/
def scanUname (uname : String) : List JEntry → Except Unit Bool
  | [] => .ok false
  | .nonDict :: xs => scanUname uname xs
  | .badUsername :: _ => .error ()
  | .urec u :: xs =>
    if pyLowerStr (u.getD "") = pyLowerStr uname then .ok true else scanUname uname xs

/-- `moodle_username_exists`: case-insensitive match over the lookup
result; any exception reaching this function is answered `True`
(the code comment says "conservative"). -/
def moodle_username_exists (username : String) (r : ProbeResult) : Bool :=
  match scanUname username (users_by_field_result r) with
  | .error _ => true
  | .ok b => b

/-- A remote request issued by the program (the call trace we prove things
about). -/
inductive RemoteCall where
  | getUsersByField (field : String) (values : List String)
  | getUserCourses (userid : Int)
  | enrolManual (roleid userid : Int) (courseid : Nat)
  | createUsers (username : String) (variant : Nat)
  | updateUsers (userid : Int)
deriving DecidableEq

/-- The audit note `next_available_username` attaches when it renames. -/
def rnote (cand base : String) : String :=
  "username adjusted to " ++ sq ++ cand ++ sq ++ " (base " ++ sq ++ base ++ sq ++ " exists)"

/-- The unbounded `while True` search of `next_available_username`, with
explicit fuel (`none` = the loop has not exited within `fuel` iterations).
Each iteration consults the batch-local set and issues one remote probe. -/
def nav_loop (ex : String → Bool) (base : String) (used_local : List String) :
    Nat → Nat → Option (String × Option String) × List RemoteCall
  | 0, _ => (none, [])
  | fuel + 1, s =>
    let candidate := candAt base s
    let call := RemoteCall.getUsersByField "username" [candidate]
    if decide (candidate ∈ used_local) || ex candidate then
      let r := nav_loop ex base used_local fuel (s + 1)
      (r.1, call :: r.2)
    else
      (some (candidate, if s = 0 then none else some (rnote candidate base)), [call])

/-- `next_available_username` against a remote environment answering each
probed username with a fixed response. -/
def next_available_username (env : String → ProbeResult) (base : String)
    (used_local : List String) (fuel : Nat) : Option (String × Option String) × List RemoteCall :=
  nav_loop (fun c => moodle_username_exists c (env c)) base used_local fuel 0

/-- One element of the course list answered by
`core_enrol_get_users_courses`: a dict with an integer-convertible `id`
(absent `id` is `int(-1)` via the `.get` default), a dict whose `id` makes
`int()` raise, or a non-dict (skipped by the comprehension filter). -/
inductive CEntry where
  | cid (i : Int)
  | bad
  | nonDict
deriving DecidableEq

/-- Response to one `core_enrol_get_users_courses` call. -/
inductive CoursesResp where
  | list (xs : List CEntry)
  | nonList
  | reqErr
deriving DecidableEq

/-- The short-circuiting membership scan inside `is_user_enrolled`; an
unconvertible `id` raises and the surrounding `except Exception` answers
`False`. -/
def scanCourses (target : Int) : List CEntry → Bool
  | [] => false
  | .cid i :: xs => if i = target then true else scanCourses target xs
  | .bad :: _ => false
  | .nonDict :: xs => scanCourses target xs

/-- `is_user_enrolled`: any failure (transport, non-list data, conversion
error) is answered `False`. -/
def is_user_enrolled (courseid : Nat) (r : CoursesResp) : Bool :=
  match r with
  | .list xs => scanCourses (Int.ofNat courseid) xs
  | .nonList => false
  | .reqErr => false

/-- Response to a call whose result the code only inspects for a
dict-shaped application exception (`enrol_manual_enrol_users`,
`core_user_update_users`): an application exception with its `message`,
`errorcode` and `debuginfo` fields (each `None` when absent), any other
JSON value, or a `RequestException`. -/
inductive WsDictResp where
  | appExn (message errorcode dbg : Option String)
  | other
  | reqErr (e : String)
deriving DecidableEq

/-- The `+ (f" ‚Äî {dbg}" if dbg else "")` suffix (absent or empty
`debuginfo` is falsy). -/
def dbgSuffix (dbg : Option String) : String :=
  match dbg with
  | some d => if d = "" then "" else " ‚Äî " ++ d
  | none => ""

/-- `enrol_user`: skip with "Already enrolled" when the membership lookup
already reports the course, otherwise issue the enrol request and classify
its response.  Returns the per-course status and the remote calls made. -/
def enrol_user (userid : Int) (courseid : Nat) (roleid : Int) (cresp : CoursesResp)
    (eresp : WsDictResp) : String × List RemoteCall :=
  if is_user_enrolled courseid cresp then
    ("Already enrolled", [.getUserCourses userid])
  else
    match eresp with
    | .appExn msg ec dbg =>
      ("‚ùå " ++ ec.getD "" ++ ": " ++ msg.getD "exception" ++ dbgSuffix dbg,
       [.getUserCourses userid, .enrolManual roleid userid courseid])
    | .other =>
      ("üéì Enrolled", [.getUserCourses userid, .enrolManual roleid userid courseid])
    | .reqErr e =>
      ("‚ùå Enrol request error: " ++ e, [.getUserCourses userid, .enrolManual roleid userid courseid])

/-- The remote directory's record for an existing user, with the field
extractions the code performs already applied: `firstname` … `email` are
`x.get(…,"") or ""`; `idStr` is `str(x.get("id","") or "")` (the value
shown in "Existing ID"); `id` is `int(x.get("id"))` when that succeeds and
`none` when it raises; `suspendedStr` is `str(x.get("suspended", 0))`. -/
structure RemoteUser where
  firstname : String
  lastname : String
  username : String
  email : String
  idStr : String
  id : Option Int
  suspendedStr : String
deriving DecidableEq

/-- `unsuspend_user_if_needed`. -/
def unsuspend_user_if_needed (rec : RemoteUser) (resp : WsDictResp) : String × List RemoteCall :=
  match rec.id with
  | none => ("Unknown", [])
  | some uid =>
    if rec.suspendedStr = "1" ∨ rec.suspendedStr = "true" ∨ rec.suspendedStr = "True" then
      match resp with
      | .appExn msg ec dbg =>
        ("‚ùå Unsuspend failed: " ++ ec.getD "" ++ ": " ++ msg.getD "exception" ++ dbgSuffix dbg,
         [.updateUsers uid])
      | .other => ("Unsuspended", [.updateUsers uid])
      | .reqErr e => ("‚ùå Unsuspend request error: " ++ e, [.updateUsers uid])
    else ("Active", [])

/-- Response to one `core_user_create_users` call: a created user with an
integer id; a list whose first record carries an `id` that `int()` rejects
(the `ValueError` escapes `_attempt_create_single`, whose `except` clause
only catches `RequestException`); a dict-shaped application exception; any
other JSON shape (reported with `str(data)[:200]`); or a transport error. -/
inductive CreateResp where
  | created (id : Int)
  | badId (e : String)
  | appExn (message errorcode dbg : Option String)
  | unexpected (raw : String)
  | reqErr (e : String)
deriving DecidableEq

/-- Outcome of a call as seen by its caller: a value, or an exception that
propagates. -/
inductive CallOutcome (α : Type) where
  | ok (a : α)
  | exn (e : String)
deriving DecidableEq

/-- Python decimal rendering of an `Int`. -/
def intStr (i : Int) : String :=
  if i < 0 then "-" ++ pyStr i.natAbs else pyStr i.natAbs

/-- `str(data)[:200]`. -/
def pyTake (n : Nat) (s : String) : String := ⟨s.data.take n⟩

/-- Classification of one `core_user_create_users` response inside
`_attempt_create_single`: the outcome `(ok, message, created id)`, or an
escaping exception. -/
def createOutcome (variant : Nat) (resp : CreateResp) : CallOutcome (Bool × String × Option Int) :=
  match resp with
  | .created i =>
    .ok (true, "‚úÖ Created (id=" ++ intStr i ++ ") via variant " ++ pyStr variant ++
      (if variant = 1 ∨ variant = 2 then " (password emailed by Moodle)" else ""), some i)
  | .badId e => .exn e
  | .appExn msg ec dbg =>
    .ok (false, "‚ùå " ++ (if ec.getD "" = "" then "exception" else ec.getD "") ++ ": "
      ++ msg.getD "exception" ++ dbgSuffix dbg ++ " [variant " ++ pyStr variant ++ "]", none)
  | .unexpected raw =>
    .ok (false, "‚ÑπÔ∏è Unexpected: " ++ pyTake 200 raw ++ " [variant " ++ pyStr variant ++ "]",
      none)
  | .reqErr e =>
    .ok (false, "‚ùå Network error: " ++ e ++ " [variant " ++ pyStr variant ++ "]", none)

/-- `_attempt_create_single`: variants 1/2 request a Moodle-generated
password, variants 3/4 write a locally generated password into the row
before the call; variants 1/3 send explicit manual auth.  Returns the
outcome, the row (with its `Password` mutation), and the remote call
made. -/
def attempt_create_single (u : Dict) (variant : Nat) (pw : String) (resp : CreateResp) :
    CallOutcome (Bool × String × Option Int) × Dict × List RemoteCall :=
  (createOutcome variant resp,
   (if variant = 1 ∨ variant = 2 then u else dset u "Password" pw),
   [RemoteCall.createUsers (dgetD u "Username" "") variant])

/-- The `for variant in (1, 2, 3, 4)` loop: try each variant in order,
keeping the last outcome, stopping at the first success (or letting an
exception escape). -/
def create_loop_go (u : Dict) (pwf : Nat → String) (respf : Nat → CreateResp) :
    List Nat → (Bool × String × Option Int) →
    CallOutcome (Bool × String × Option Int) × Dict × List RemoteCall
  | [], acc => (.ok acc, u, [])
  | v :: vs, _ =>
    match attempt_create_single u v (pwf v) (respf v) with
    | (.exn e, u2, calls) => (.exn e, u2, calls)
    | (.ok r, u2, calls) =>
      if r.1 then (.ok r, u2, calls)
      else
        match create_loop_go u2 pwf respf vs r with
        | (out, u3, calls2) => (out, u3, calls ++ calls2)

/-- The creation fallback chain over variants 1–4. -/
def create_loop (u : Dict) (pwf : Nat → String) (respf : Nat → CreateResp) :
    CallOutcome (Bool × String × Option Int) × Dict × List RemoteCall :=
  create_loop_go u pwf respf [1, 2, 3, 4] (false, "", none)

/-! ### The job pipeline (`_process_job`) -/

/-- One element of the JSON list answered by the e-mail prefetch: a user
dict, or a non-dict element (dropped when building the map). -/
inductive PEntry where
  | dict (ru : RemoteUser)
  | nonDict
deriving DecidableEq

/-- Response to the one `core_user_get_users_by_field` e-mail prefetch. -/
inductive PrefetchResp where
  | reqErr
  | nonList
  | list (xs : List PEntry)
deriving DecidableEq

/-- `moodle_get_users_by_field("email", …)` and the dict-comprehension
filter: transport errors and non-list data give no users. -/
def prefetch_users : PrefetchResp → List RemoteUser
  | .reqErr => []
  | .nonList => []
  | .list xs => xs.filterMap (fun e => match e with | .dict ru => some ru | .nonDict => none)

/-- `existing_by_email.get(key)`: the dict comprehension keys each user by
its lower-cased e-mail, later entries overwriting earlier ones. -/
def lookupRU (l : List RemoteUser) (key : String) : Option RemoteUser :=
  l.reverse.find? (fun x => pyLowerStr x.email == key)

/-- A row in flight: the dict plus its `_rename_note` (kept outside the
dict since it is popped before any event mentions the row). -/
abbrev PRow := Dict × Option String

/-- The per-row slice of the remote environment: the generated password and
the create response for each variant, the unsuspend response, and the
course-lookup/enrol responses for each position in the parsed course-id
list. -/
structure RowEnv where
  pw : Nat → String
  create : Nat → CreateResp
  upd : WsDictResp
  courses : Nat → CoursesResp
  enrol : Nat → WsDictResp

/-- The `for cid in course_ids` enrolment loop: one membership lookup and
(at most) one enrol request per course id, each outcome tagged with its
course id. -/
def enrol_loop (userid : Int) (roleid : Int) (renv : RowEnv) :
    Nat → List Nat → List String × List RemoteCall
  | _, [] => ([], [])
  | j, cid :: rest =>
    let r := enrol_user userid cid roleid (renv.courses j) (renv.enrol j)
    let rest2 := enrol_loop userid roleid renv (j + 1) rest
    ((pyStr cid ++ ": " ++ r.1) :: rest2.1, r.2 ++ rest2.2)

/-- The enrolment section at the end of a row's processing. -/
def enrol_part (u : Dict) (uid? : Option Int) (course_ids : List Nat) (renv : RowEnv)
    (roleid : Int) (prevCalls : List RemoteCall) : Dict × List RemoteCall :=
  let r :=
    if course_ids = [] then (["No course id provided"], ([] : List RemoteCall))
    else
      match uid? with
      | none => (["‚ùå No user id for enrolment"], [])
      | some uid => enrol_loop uid roleid renv 0 course_ids
  let u := dset u "Enrol Status"
    (if r.1 ≠ [] then pyJoin " | " r.1 else dgetD u "Enrol Status" "")
  (u, prevCalls ++ r.2)

/-- `str(KeyError(k))` as rendered into the server-error status. -/
def keyErrorMsg (k : String) : String := sq ++ k ++ sq

/-- Processing of one row inside the `try`/`except`/`finally` of the row
loop: returns the row after mutation and the remote calls made for it.
Any exception is caught and turned into a row-local "Server error" status
(`except Exception as e`). -/
def process_row (exmap : List RemoteUser) (renv : RowEnv) (roleid : Int) (p : PRow) :
    Dict × List RemoteCall :=
  let u := p.1
  if dtruthy (dget u "Status") then (u, [])
  else
    let course_ids := parse_course_ids (pyStrip (dgetD u "Course IDs" ""))
    match dget u "Email Address" with
    | none => (dset u "Status" ("‚ùå Server error: " ++ keyErrorMsg "Email Address"), [])
    | some emv =>
      match lookupRU exmap (pyLowerStr emv) with
      | some existing =>
        let u := dset u "Existing First Name" existing.firstname
        let u := dset u "Existing Last Name" existing.lastname
        let u := dset u "Existing Username" existing.username
        let u := dset u "Existing Email" existing.email
        let u := dset u "Existing ID" existing.idStr
        let u := dset u "Status" "already exist"
        let s := unsuspend_user_if_needed existing renv.upd
        let u := dset u "Suspend Status" s.1
        enrol_part u existing.id course_ids renv roleid s.2
      | none =>
        match create_loop u renv.pw renv.create with
        | (.exn e, u2, calls) => (dset u2 "Status" ("‚ùå Server error: " ++ e), calls)
        | (.ok (created_ok, msg, created_id), u2, calls) =>
          let msg :=
            if created_ok ∧ p.2.getD "" ≠ "" then msg ++ " ‚Äî " ++ p.2.getD "" else msg
          let u2 := dset u2 "Status" (pyOr msg "‚ùå Unknown outcome")
          match dget u2 "Suspend Status" with
          | none =>
            (dset u2 "Status" ("‚ùå Server error: " ++ keyErrorMsg "Suspend Status"), calls)
          | some sv =>
            let u2 := dset u2 "Suspend Status" (if created_ok then "Active" else pyOr sv "")
            enrol_part u2 created_id course_ids renv roleid calls

/-- The preparation loop at the top of `_process_job`: lower-case the
username, default the enrol/suspend status fields, reset the rename note,
and record a validation failure in `Status`. -/
def prep_row (u : Dict) : PRow :=
  let u := dset u "Username" (pyLowerStr (dgetD u "Username" ""))
  let u := dset u "Enrol Status" (dgetD u "Enrol Status" "")
  let u := dset u "Suspend Status" (dgetD u "Suspend Status" "")
  let u :=
    match validate_row u with
    | some err => dset u "Status" ("‚ùå Client-side validation: " ++ err)
    | none => u
  (u, none)

/-- The `AUTO_FIX_USERNAME_DUPLICATES` reconciliation pass: for each row
without a `Status`, run `next_available_username` against the batch-local
claimed set, claim the result, and rename the row (attaching the audit
note) when it differs from its username.  `none` models the pass not
terminating within `fuel` probe iterations on some row.  Returns each row
with the probe calls made for it. -/
def reconcile (probe : String → ProbeResult) (fuel : Nat) :
    List PRow → List String → Option (List (PRow × List RemoteCall))
  | [], _ => some []
  | p :: ps, used =>
    if dtruthy (dget p.1 "Status") then
      match reconcile probe fuel ps used with
      | none => none
      | some rest => some ((p, []) :: rest)
    else
      let base := dgetD p.1 "Username" ""
      match next_available_username probe base used fuel with
      | (none, _) => none
      | (some (cand, note), calls) =>
        let p2 := if cand ≠ base then (dset p.1 "Username" cand, note) else p
        match reconcile probe fuel ps (cand :: used) with
        | none => none
        | some rest => some ((p2, calls) :: rest)

/-- An item put on the job's event queue (the JSON serialisation inside
`sse` is I/O plumbing; events are modelled structurally).  `sentinel` is
the final `":\n\n"` comment string. -/
inductive QItem where
  | stage (nEmails : Nat)
  | row_update (index : Nat) (row : Dict)
  | progress (processed total percent : Nat)
  | done (percent total : Nat)
  | sentinel
deriving DecidableEq

/-- The whole remote environment a job runs against. -/
structure Env where
  probe : String → ProbeResult
  prefetch : PrefetchResp
  row : Nat → RowEnv

/-- The `for idx, u in enumerate(rows)` loop: process each row, then (in
the `finally` block) emit its `row_update` and a `progress` event; the
`processed` counter always equals `idx + 1` at that point.  The `percent`
uses Python's truncating division `int(processed * 100 / max(total, 1))`. -/
def row_loop (exmap : List RemoteUser) (env : Env) (roleid : Int) (total : Nat) :
    Nat → List PRow → List QItem × List Dict × List (List RemoteCall)
  | _, [] => ([], [], [])
  | idx, p :: ps =>
    let r := process_row exmap (env.row idx) roleid p
    let rest := row_loop exmap env roleid total (idx + 1) ps
    (QItem.row_update idx r.1 ::
       QItem.progress (idx + 1) total ((idx + 1) * 100 / max total 1) :: rest.1,
     r.1 :: rest.2.1, r.2 :: rest.2.2)

/-- Everything observable about one `_process_job` run: the event-queue
items in order, the final rows (`none` when the worker never finishes
because reconciliation loops), the per-row reconciliation probe calls, the
e-mail list sent to the prefetch, and the per-row calls of the row loop. -/
structure JobRun where
  events : List QItem
  result : Option (List Dict)
  recCalls : Option (List (List RemoteCall))
  emailsChecked : Option (List String)
  rowCalls : Option (List (List RemoteCall))
deriving DecidableEq

/-- `_process_job`: prepare and validate rows, reconcile usernames, put the
`stage` event, prefetch existing users by e-mail, run the row loop, then
emit `done` and the closing sentinel. -/
def process_job (env : Env) (roleid : Int) (fuel : Nat) (rows_in : List Dict) : JobRun :=
  let prows := rows_in.map prep_row
  match reconcile env.probe fuel prows [] with
  | none => ⟨[], none, none, none, none⟩
  | some rcs =>
    let rows1 := rcs.map (·.1)
    let emails := (rows1.filter (fun p => !dtruthy (dget p.1 "Status"))).map
      (fun p => dgetD p.1 "Email Address" "")
    let existing := prefetch_users env.prefetch
    let total := rows1.length
    let r := row_loop existing env roleid total 0 rows1
    ⟨QItem.stage emails.length :: (r.1 ++ [QItem.done 100 total, QItem.sentinel]),
     some r.2.1, some (rcs.map (·.2)), some emails, some r.2.2⟩

/-! ## Lemmas about the username search -/

/-- Candidate `n` is free: neither claimed in the batch-local set nor
treated as existing by the remote check. -/
def NavFree (ex : String → Bool) (base : String) (used : List String) (n : Nat) : Prop :=
  candAt base n ∉ used ∧ ex (candAt base n) = false

instance (ex : String → Bool) (base : String) (used : List String) :
    DecidablePred (NavFree ex base used) := fun n => by
  unfold NavFree; infer_instance

theorem pyStr_data_ne_nil (n : Nat) : (pyStr n).data ≠ [] :=
  decDigitsAux_ne_nil n n

theorem candAt_eq_base_iff (base : String) (n : Nat) : candAt base n = base ↔ n = 0 := by
  constructor
  · intro h
    by_contra hn
    have h2 : base ++ pyStr n = base := by simpa [candAt, hn] using h
    have hd : base.data ++ (pyStr n).data = base.data ++ [] := by
      simpa [String.data_append] using congrArg String.data h2
    exact pyStr_data_ne_nil n (List.append_cancel_left hd)
  · rintro rfl; simp [candAt]

theorem candAt_inj (base : String) {n m : Nat} (h : candAt base n = candAt base m) : n = m := by
  rcases Nat.eq_zero_or_pos n with hn | hn
  · subst hn
    have : candAt base m = base := by simpa [candAt] using h.symm
    exact ((candAt_eq_base_iff base m).mp this).symm
  · rcases Nat.eq_zero_or_pos m with hm | hm
    · subst hm
      have : candAt base n = base := by simpa [candAt] using h
      exact (candAt_eq_base_iff base n).mp this
    · have hne : n ≠ 0 := Nat.pos_iff_ne_zero.mp hn
      have hme : m ≠ 0 := Nat.pos_iff_ne_zero.mp hm
      have h2 : base ++ pyStr n = base ++ pyStr m := by simpa [candAt, hne, hme] using h
      have hd : base.data ++ (pyStr n).data = base.data ++ (pyStr m).data := by
        simpa [String.data_append] using congrArg String.data h2
      exact pyStr_injective (congrArg String.mk (List.append_cancel_left hd))

theorem nav_loop_sound (ex : String → Bool) (base : String) (used : List String) :
    ∀ fuel s c note, (nav_loop ex base used fuel s).1 = some (c, note) →
      ∃ n, s ≤ n ∧ c = candAt base n ∧ NavFree ex base used n ∧
        (∀ m, s ≤ m → m < n → ¬ NavFree ex base used m) ∧
        note = if n = 0 then none else some (rnote c base) := by
  intro fuel
  induction fuel with
  | zero => intro s c note h; simp [nav_loop] at h
  | succ f ih =>
    intro s c note h
    rw [nav_loop] at h
    by_cases hblock : (decide (candAt base s ∈ used) || ex (candAt base s)) = true
    · rw [if_pos hblock] at h
      obtain ⟨n, hsn, hc, hfree, hmin, hnote⟩ := ih (s + 1) c note h
      refine ⟨n, by omega, hc, hfree, ?_, hnote⟩
      intro m hm1 hm2
      rcases Nat.eq_or_lt_of_le hm1 with hm | hm
      · subst hm
        intro ⟨hnotin, hexf⟩
        rcases Bool.or_eq_true_iff.mp hblock with hl | hr
        · exact hnotin (of_decide_eq_true hl)
        · rw [hexf] at hr; cases hr
      · exact hmin m hm hm2
    · rw [if_neg hblock] at h
      have hfree : NavFree ex base used s := by
        constructor
        · intro hin
          exact hblock (Bool.or_eq_true_iff.mpr (Or.inl (decide_eq_true hin)))
        · cases hex : ex (candAt base s)
          · rfl
          · exact absurd (Bool.or_eq_true_iff.mpr (Or.inr hex)) hblock
      simp only [Option.some.injEq, Prod.mk.injEq] at h
      refine ⟨s, le_refl s, h.1.symm, hfree, ?_, by rw [← h.2, ← h.1]⟩
      intro m hm1 hm2
      omega

theorem nav_loop_complete (ex : String → Bool) (base : String) (used : List String) :
    ∀ fuel s, (∃ n, s ≤ n ∧ n < s + fuel ∧ NavFree ex base used n) →
      ∃ r, (nav_loop ex base used fuel s).1 = some r := by
  intro fuel
  induction fuel with
  | zero => intro s ⟨n, h1, h2, _⟩; omega
  | succ f ih =>
    intro s ⟨n, h1, h2, hfree⟩
    rw [nav_loop]
    by_cases hblock : (decide (candAt base s ∈ used) || ex (candAt base s)) = true
    · rw [if_pos hblock]
      have hns : n ≠ s := by
        intro he
        subst he
        rcases Bool.or_eq_true_iff.mp hblock with hl | hr
        · exact hfree.1 (of_decide_eq_true hl)
        · rw [hfree.2] at hr; cases hr
      exact ih (s + 1) ⟨n, by omega, by omega, hfree⟩
    · rw [if_neg hblock]
      exact ⟨_, rfl⟩

theorem nav_loop_none (ex : String → Bool) (base : String) (used : List String)
    (hall : ∀ n, ¬ NavFree ex base used n) :
    ∀ fuel s, (nav_loop ex base used fuel s).1 = none := by
  intro fuel
  induction fuel with
  | zero => intro s; rfl
  | succ f ih =>
    intro s
    rw [nav_loop]
    have hblock : (decide (candAt base s ∈ used) || ex (candAt base s)) = true := by
      by_contra hb
      apply hall s
      constructor
      · intro hin; exact hb (Bool.or_eq_true_iff.mpr (Or.inl (decide_eq_true hin)))
      · cases hex : ex (candAt base s)
        · rfl
        · exact absurd (Bool.or_eq_true_iff.mpr (Or.inr hex)) hb
    rw [if_pos hblock]
    exact ih (s + 1)

/-! ## Claim C4 -/

/-- C4, counterexample to "any failure of the remote probe (a thrown
exception) is treated as the username existing": a
`requests.RequestException` thrown during the probe is caught inside
`moodle_get_users_by_field`, which returns `[]`, so
`moodle_username_exists` answers `False` — the name is treated as free.
Consequently, even against a remote whose every probe fails with a
transport error, `next_available_username` happily returns a candidate
(here `ann1`, since `ann` is claimed locally), which the claim as stated
forbids. -/
theorem C4_probe_failure_counterexample :
    (next_available_username (fun _ => ProbeResult.reqErr) "ann" ["ann"] 2).1 =
      some ("ann1", some (rnote "ann1" "ann")) ∧
    moodle_username_exists "ann" ProbeResult.reqErr = false := by decide

/-- C4 (amended): when `next_available_username` returns, its result is the
first candidate of `base, base1, base2, …` that is neither in the
batch-local claimed set nor treated as existing by
`moodle_username_exists`, and the audit note is `None` exactly when the
candidate equals the base.  An exception reaching
`moodle_username_exists` itself (for instance a non-string `username`
value in the response) is treated as "exists", but a
`requests.RequestException` during the lookup yields an empty result and
is treated as "free". -/
theorem C4_next_available_username_spec (env : String → ProbeResult) (base : String)
    (used : List String) (fuel : Nat) (c : String) (note : Option String)
    (h : (next_available_username env base used fuel).1 = some (c, note)) :
    (∃ n, c = candAt base n ∧
        NavFree (fun s => moodle_username_exists s (env s)) base used n ∧
        (∀ m, m < n → ¬ NavFree (fun s => moodle_username_exists s (env s)) base used m)) ∧
    ((note = none) ↔ c = base) ∧
    (∀ u, moodle_username_exists u ProbeResult.reqErr = false) ∧
    (∀ u xs, moodle_username_exists u (ProbeResult.list (JEntry.badUsername :: xs)) = true) := by
  obtain ⟨n, hsn, hc, hfree, hmin, hnote⟩ :=
    nav_loop_sound (fun s => moodle_username_exists s (env s)) base used fuel 0 c note h
  refine ⟨⟨n, hc, hfree, fun m hm => hmin m (Nat.zero_le m) hm⟩, ?_, fun u => rfl, fun u xs => rfl⟩
  constructor
  · intro hn
    rw [hnote] at hn
    by_cases h0 : n = 0
    · rw [hc, h0]; simp [candAt]
    · rw [if_neg h0] at hn; cases hn
  · intro hcb
    rw [hc] at hcb
    rw [hnote, if_pos ((candAt_eq_base_iff base n).mp hcb)]

/-- Witness for `C4_next_available_username_spec`: a concrete run against
an empty remote, where the base itself is returned with no note. -/
theorem C4_next_available_username_spec_witness :
    (∃ n, "ann" = candAt "ann" n ∧
        NavFree (fun s => moodle_username_exists s ((fun _ => ProbeResult.list []) s)) "ann" [] n ∧
        (∀ m, m < n →
          ¬ NavFree (fun s => moodle_username_exists s ((fun _ => ProbeResult.list []) s)) "ann" [] m)) ∧
    (((none : Option String) = none) ↔ "ann" = "ann") ∧
    (∀ u, moodle_username_exists u ProbeResult.reqErr = false) ∧
    (∀ u xs, moodle_username_exists u (ProbeResult.list (JEntry.badUsername :: xs)) = true) :=
  C4_next_available_username_spec (fun _ => ProbeResult.list []) "ann" [] 1 "ann" none (by decide)

/-! ## Claim C10 -/

/-- C10 counterexample: a failed probe does not count as existing.  With
every probe failing (so infinitely many probe failures along the candidate
sequence), `moodle_username_exists` answers `false` for every candidate —
the `RequestException` is caught inside the lookup, which returns the
empty list — and the search terminates at once, returning the bare base
as free.  This refutes the claim's premise that probe failures count as
existing and must occur only finitely often for termination. -/
theorem C10_counterexample :
    (∀ s, moodle_username_exists s ((fun _ => ProbeResult.reqErr) s) = false) ∧
    (next_available_username (fun _ => ProbeResult.reqErr) "ann" [] 1).1 =
      some ("ann", none) :=
  ⟨fun _ => rfl, by decide⟩

/-- C10 (amended): the search of `next_available_username` terminates
exactly when some candidate is free; it terminates whenever only finitely
many candidates are blocked — where blocked means claimed in the
batch-local set or reported as existing by `moodle_username_exists`, whose
answer on a probe that fails with a transport error is `false` (the
failure is caught inside the lookup and yields an empty user list), so
probe failures never block a candidate — and when every candidate is
blocked no amount of fuel makes the loop exit: there is no other bound on
the loop. -/
theorem C10_nav_termination (env : String → ProbeResult) (base : String) (used : List String) :
    ({n | ¬ NavFree (fun s => moodle_username_exists s (env s)) base used n}.Finite →
      ∃ fuel r, (next_available_username env base used fuel).1 = some r) ∧
    ((∀ n, ¬ NavFree (fun s => moodle_username_exists s (env s)) base used n) →
      ∀ fuel, (next_available_username env base used fuel).1 = none) := by
  constructor
  · intro hfin
    have hex : ∃ n, NavFree (fun s => moodle_username_exists s (env s)) base used n := by
      by_contra hno
      push_neg at hno
      have : {n | ¬ NavFree (fun s => moodle_username_exists s (env s)) base used n} = Set.univ := by
        ext n; simpa using hno n
      rw [this] at hfin
      exact Set.infinite_univ hfin
    obtain ⟨n, hn⟩ := hex
    obtain ⟨r, hr⟩ := nav_loop_complete (fun s => moodle_username_exists s (env s)) base used
      (n + 1) 0 ⟨n, Nat.zero_le n, by omega, hn⟩
    exact ⟨n + 1, r, hr⟩
  · intro hall fuel
    exact nav_loop_none (fun s => moodle_username_exists s (env s)) base used hall fuel 0

/-- Witness for `C10_nav_termination`: against an empty remote no candidate
is blocked, the blocked set is empty hence finite, and the search indeed
returns. -/
theorem C10_nav_termination_witness :
    ∃ fuel r, (next_available_username (fun _ => ProbeResult.list []) "ann" [] fuel).1 = some r :=
  (C10_nav_termination (fun _ => ProbeResult.list []) "ann" []).1 (by
    have : {n | ¬ NavFree (fun s => moodle_username_exists s
        ((fun _ => ProbeResult.list []) s)) "ann" [] n} = ∅ := by
      ext n
      simp [NavFree, moodle_username_exists, users_by_field_result, scanUname]
    rw [this]
    exact Set.finite_empty)

/-! ## Claim C6 -/

/-- C6: enrolment is idempotent — when the course-membership lookup
reports the user as already a member of the course, `enrol_user` answers
"Already enrolled" and the only remote call it makes is that lookup; the
`enrol_manual_enrol_users` request is issued exactly when the lookup does
not report the course. -/
theorem C6_enrol_idempotent (userid : Int) (courseid : Nat) (roleid : Int)
    (cresp : CoursesResp) (eresp : WsDictResp) :
    (is_user_enrolled courseid cresp = true →
      enrol_user userid courseid roleid cresp eresp =
        ("Already enrolled", [RemoteCall.getUserCourses userid])) ∧
    ((RemoteCall.enrolManual roleid userid courseid) ∈
        (enrol_user userid courseid roleid cresp eresp).2 ↔
      is_user_enrolled courseid cresp = false) := by
  by_cases h : is_user_enrolled courseid cresp = true
  · refine ⟨fun _ => by rw [enrol_user.eq_def, if_pos h], ?_⟩
    rw [enrol_user.eq_def, if_pos h]
    simp [h]
  · have hf : is_user_enrolled courseid cresp = false := Bool.not_eq_true _ ▸ Bool.eq_false_iff.mpr h
    refine ⟨fun ht => absurd ht h, ?_⟩
    rw [enrol_user.eq_def, if_neg h]
    cases eresp <;> simp [hf]

/-- Witness for `C6_enrol_idempotent`: a concrete already-enrolled pair. -/
theorem C6_enrol_idempotent_witness :
    enrol_user 1 7 5 (CoursesResp.list [CEntry.cid 7]) WsDictResp.other =
      ("Already enrolled", [RemoteCall.getUserCourses 1]) :=
  (C6_enrol_idempotent 1 7 5 (CoursesResp.list [CEntry.cid 7]) WsDictResp.other).1 (by decide)

/-! ## Lemmas about `make_usernames` -/

theorem char_le_iff {a b : Char} : a ≤ b ↔ a.toNat ≤ b.toNat := by
  rw [Char.le_def]
  exact ⟨fun h => h, fun h => h⟩

theorem toNat_ofNat_valid {n : Nat} (h : n.isValidChar) : (Char.ofNat n).toNat = n := by
  rw [Char.ofNat, dif_pos h]; rfl

/-- How many of the next `fuel` candidates starting at suffix `s` are
already claimed. -/
def blockedCount (base : String) (used : List String) (s fuel : Nat) : Nat :=
  ((List.range' s fuel).filter (fun n => decide (candAt base n ∈ used))).length

theorem bump_candidate_free_of_count (base : String) (used : List String) :
    ∀ fuel s, blockedCount base used s fuel < fuel →
      candAt base (bump_candidate base used fuel s) ∉ used := by
  intro fuel
  induction fuel with
  | zero => intro s h; omega
  | succ f ih =>
    intro s h
    rw [bump_candidate]
    by_cases hin : candAt base s ∈ used
    · rw [if_pos hin]
      have heq : blockedCount base used s (f + 1) = blockedCount base used (s + 1) f + 1 := by
        unfold blockedCount
        rw [List.range'_succ, List.filter_cons]
        simp [hin]
      exact ih (s + 1) (by omega)
    · rw [if_neg hin]; exact hin

theorem blockedCount_le (base : String) (used : List String) (s fuel : Nat) :
    blockedCount base used s fuel ≤ used.length := by
  unfold blockedCount
  have hnd : ((List.range' s fuel).filter (fun n => decide (candAt base n ∈ used))).Nodup :=
    (List.nodup_range' s fuel).filter _
  have hinj : Function.Injective (candAt base) := fun a b h => candAt_inj base h
  have hmap : (((List.range' s fuel).filter
      (fun n => decide (candAt base n ∈ used))).map (candAt base)).Nodup := hnd.map hinj
  have hsub : ∀ x ∈ ((List.range' s fuel).filter
      (fun n => decide (candAt base n ∈ used))).map (candAt base), x ∈ used := by
    intro x hx
    obtain ⟨n, hn, rfl⟩ := List.mem_map.mp hx
    exact of_decide_eq_true (List.mem_filter.mp hn).2
  calc ((List.range' s fuel).filter (fun n => decide (candAt base n ∈ used))).length
      = (((List.range' s fuel).filter
          (fun n => decide (candAt base n ∈ used))).map (candAt base)).length :=
        (List.length_map _ _).symm
    _ = (((List.range' s fuel).filter
          (fun n => decide (candAt base n ∈ used))).map (candAt base)).toFinset.card :=
        (List.toFinset_card_of_nodup hmap).symm
    _ ≤ used.toFinset.card := by
        apply Finset.card_le_card
        intro x hx
        exact List.mem_toFinset.mpr (hsub x (List.mem_toFinset.mp hx))
    _ ≤ used.length := List.toFinset_card_le used

/-- With the fuel `make_usernames` supplies, the `while` loop always exits
on a candidate that is not yet claimed — exactly as the source's unbounded
loop does. -/
theorem bump_candidate_free (base : String) (used : List String) (s : Nat) :
    candAt base (bump_candidate base used (used.length + 1) s) ∉ used :=
  bump_candidate_free_of_count base used (used.length + 1) s
    (Nat.lt_succ_of_le (blockedCount_le base used s (used.length + 1)))

theorem pyOr_ne_empty (a b : String) (hb : b ≠ "") : pyOr a b ≠ "" := by
  unfold pyOr
  by_cases ha : a = ""
  · rw [if_pos ha]; exact hb
  · rw [if_neg ha]; exact ha

theorem candAt_ne_empty (base : String) (hb : base ≠ "") (n : Nat) : candAt base n ≠ "" := by
  unfold candAt
  by_cases hn : n = 0
  · rw [if_pos hn]; exact hb
  · rw [if_neg hn]
    intro h
    have hd : base.data ++ (pyStr n).data = [] := by
      simpa [String.data_append] using congrArg String.data h
    rcases List.append_eq_nil.mp hd with ⟨_, h2⟩
    exact pyStr_data_ne_nil n h2

theorem dgetD_mkOutRow_username (f l e ci cand : String) :
    dgetD (mkOutRow f l e ci cand) "Username" "" = cand := by
  simp [mkOutRow, dgetD, dget]

/-- Invariant of the `make_usernames` loop: produced usernames avoid the
claimed set, are pairwise distinct, and are never empty. -/
theorem mu_go_invariant (rows : List Dict) :
    ∀ counts used out, make_usernames_go counts used rows = .ok out →
      (∀ un ∈ usernamesOf out, un ∉ used) ∧ (usernamesOf out).Nodup ∧
      (∀ un ∈ usernamesOf out, un ≠ "") := by
  induction rows with
  | nil =>
    intro counts used out h
    simp only [make_usernames_go, Except.ok.injEq] at h
    subst h
    exact ⟨by simp [usernamesOf], by simp [usernamesOf], by simp [usernamesOf]⟩
  | cons r rs ih =>
    intro counts used out h
    rw [make_usernames_go] at h
    by_cases hb : blankRow r = true
    · rw [if_pos hb] at h
      exact ih counts used out h
    · rw [if_neg hb] at h
      cases hnr : normalize_row_keys r with
      | error e => rw [hnr] at h; cases h
      | ok base_row =>
        rw [hnr] at h
        simp only at h
        set base := pyOr (ascii_slug (apply_replacements
          (dgetD base_row "First Name" "" ++ dgetD base_row "Last Name" "")))
          (pyOr (ascii_slug (emailLocalPart (clean_email (dgetD base_row "Email Address" ""))))
            "user") with hbase
        set suffix := bump_candidate base used (used.length + 1)
          ((lookupNat counts base).getD 0) with hsuffix
        set candidate := candAt base suffix with hcand
        cases hrec : make_usernames_go (setNat counts base suffix) (candidate :: used) rs with
        | error e => rw [hrec] at h; cases h
        | ok out2 =>
          rw [hrec] at h
          simp only [Except.ok.injEq] at h
          subst h
          obtain ⟨hav, hnd, hne⟩ := ih _ _ _ hrec
          have hfree : candidate ∉ used := bump_candidate_free base used _
          have hbase_ne : base ≠ "" := by
            rw [hbase]
            exact pyOr_ne_empty _ _ (pyOr_ne_empty _ _ (by decide))
          have hcand_ne : candidate ≠ "" := candAt_ne_empty base hbase_ne suffix
          have hus : usernamesOf (mkOutRow (cap_words (dgetD base_row "First Name" ""))
              (cap_words (dgetD base_row "Last Name" ""))
              (clean_email (dgetD base_row "Email Address" ""))
              (pyStrip (dgetD base_row "Course IDs" "")) candidate :: out2) =
              candidate :: usernamesOf out2 := by
            simp [usernamesOf, dgetD_mkOutRow_username]
          rw [hus]
          refine ⟨?_, ?_, ?_⟩
          · intro un hun
            rcases List.mem_cons.mp hun with hh | hh
            · subst hh; exact hfree
            · exact fun hu => (hav un hh) (List.mem_cons_of_mem _ hu)
          · refine List.nodup_cons.mpr ⟨?_, hnd⟩
            intro hmem
            exact (hav candidate hmem) (List.mem_cons_self _ _)
          · intro un hun
            rcases List.mem_cons.mp hun with hh | hh
            · subst hh; exact hcand_ne
            · exact hne un hh

/-! ## ASCII character bookkeeping for the username pattern -/

/-- Every character of the list is ASCII. -/
def asciiL (l : List Char) : Prop := ∀ c ∈ l, c.toNat < 128

theorem pyLowerChar_ascii {c : Char} (h : c.toNat < 128) :
    (pyLowerChar c).toNat < 128 ∧ ¬('A' ≤ pyLowerChar c ∧ pyLowerChar c ≤ 'Z') := by
  unfold pyLowerChar
  by_cases hAZ : 'A' ≤ c ∧ c ≤ 'Z'
  · rw [if_pos hAZ]
    have hA : ('A' : Char).toNat = 65 := rfl
    have hZ : ('Z' : Char).toNat = 90 := rfl
    have h1 := char_le_iff.mp hAZ.1
    have h2 := char_le_iff.mp hAZ.2
    rw [hA] at h1
    rw [hZ] at h2
    have hv : (c.toNat + 32).isValidChar := Or.inl (by omega)
    have ht : (Char.ofNat (c.toNat + 32)).toNat = c.toNat + 32 := toNat_ofNat_valid hv
    refine ⟨by rw [ht]; omega, ?_⟩
    rintro ⟨ha, hb⟩
    have h3 := char_le_iff.mp hb
    rw [hZ, ht] at h3
    omega
  · rw [if_neg hAZ, if_neg (by omega), if_neg (by omega)]
    exact ⟨h, fun hc => hAZ hc⟩

theorem flatNfd_ascii : ∀ l : List Char, asciiL l →
    ((l.flatMap nfdChar).filter (fun c => !isMn c)) = l := by
  intro l
  induction l with
  | nil => intro _; rfl
  | cons c cs ihl =>
    intro hl
    have hc : c.toNat < 128 := hl c (List.mem_cons_self _ _)
    have hcs : asciiL cs := fun x hx => hl x (List.mem_cons_of_mem _ hx)
    rw [List.flatMap_cons]
    have h1 : nfdChar c = [c] := by
      unfold nfdChar
      rw [if_neg (by omega), if_neg (by omega)]
    have h2 : isMn c = false := by
      unfold isMn
      rw [decide_eq_false (by omega : ¬ 0x300 ≤ c.toNat), Bool.false_and]
    rw [h1, List.singleton_append, List.filter_cons, h2]
    simp only [Bool.not_false, if_true]
    rw [ihl hcs]

theorem remove_diacritics_ascii {s : String} (h : asciiL s.data) :
    (remove_diacritics s).data = s.data := flatNfd_ascii s.data h

theorem decDigit_range (d : Nat) : '0' ≤ decDigit d ∧ decDigit d ≤ '9' := by
  rcases d with _|_|_|_|_|_|_|_|_|d <;>
    first
      | decide
      | exact (by decide : ('0' : Char) ≤ '9' ∧ ('9' : Char) ≤ '9')

theorem decDigitsAux_digits : ∀ fuel n, ∀ c ∈ decDigitsAux fuel n, '0' ≤ c ∧ c ≤ '9' := by
  intro fuel
  induction fuel with
  | zero => intro n c hc; cases hc
  | succ f ih =>
    intro n c hc
    rw [decDigitsAux] at hc
    by_cases h10 : n < 10
    · rw [if_pos h10] at hc
      rcases List.mem_singleton.mp hc with rfl
      exact decDigit_range n
    · rw [if_neg h10] at hc
      rcases List.mem_append.mp hc with hh | hh
      · exact ih (n / 10) c hh
      · rcases List.mem_singleton.mp hh with rfl
        exact decDigit_range (n % 10)

theorem pyStr_digits (n : Nat) : ∀ c ∈ (pyStr n).data, '0' ≤ c ∧ c ≤ '9' :=
  decDigitsAux_digits (n + 1) n

/-- Characters produced by `ascii_slug` on an ASCII input are lower-case
letters or digits. -/
theorem ascii_slug_chars {s : String} (h : asciiL s.data) :
    ∀ c ∈ (ascii_slug s).data, ('a' ≤ c ∧ c ≤ 'z') ∨ ('0' ≤ c ∧ c ≤ '9') := by
  intro c hc
  have hc2 : c ∈ (pyLowerStr (remove_diacritics s)).data.filter pyIsAlnum := hc
  rw [List.mem_filter] at hc2
  obtain ⟨hmem, hal⟩ := hc2
  have hmem2 : c ∈ (remove_diacritics s).data.map pyLowerChar := hmem
  rw [remove_diacritics_ascii h] at hmem2
  obtain ⟨c0, hc0, rfl⟩ := List.mem_map.mp hmem2
  obtain ⟨hasc, hnAZ⟩ := pyLowerChar_ascii (h c0 hc0)
  rw [pyIsAlnum, pyIsAlpha] at hal
  simp only [Bool.or_eq_true, Bool.and_eq_true, decide_eq_true_eq] at hal
  rcases hal with (((((haz | hAZ) | he) | hE) | hae) | hAE) | hdig
  · exact Or.inl haz
  · exact absurd hAZ hnAZ
  · omega
  · omega
  · omega
  · omega
  · exact Or.inr hdig

theorem pyStrip_subset (s : String) : ∀ c ∈ (pyStrip s).data, c ∈ s.data := by
  intro c hc
  have hc2 : c ∈ ((s.data.dropWhile (fun c => pySpace c)).reverse.dropWhile
      (fun c => pySpace c)).reverse := hc
  rw [List.mem_reverse] at hc2
  have hc3 := (List.dropWhile_sublist _).subset hc2
  rw [List.mem_reverse] at hc3
  exact (List.dropWhile_sublist _).subset hc3

theorem splitFirstSpaceRest_subset (s : String) :
    ∀ c ∈ (splitFirstSpaceRest s).data, c ∈ s.data := by
  intro c hc
  have hc2 : c ∈ (s.data.dropWhile (fun c => c ≠ ' ')).drop 1 := hc
  exact (List.dropWhile_sublist _).subset (List.drop_subset _ _ hc2)

theorem replaceGo_subset (pat rep : List Char) :
    ∀ fuel l c, c ∈ replaceGo pat rep fuel l → c ∈ l ∨ c ∈ rep := by
  intro fuel
  induction fuel with
  | zero => intro l c hc; exact Or.inl hc
  | succ f ih =>
    intro l c hc
    match l, hc with
    | [], hc => cases hc
    | d :: rest, hc =>
      rw [replaceGo] at hc
      by_cases hp : pat.isPrefixOf (d :: rest) = true
      · rw [if_pos hp] at hc
        rcases List.mem_append.mp hc with hh | hh
        · exact Or.inr hh
        · rcases ih _ c hh with hh2 | hh2
          · exact Or.inl (List.drop_subset _ _ hh2)
          · exact Or.inr hh2
      · rw [if_neg hp] at hc
        rcases List.mem_cons.mp hc with hh | hh
        · exact Or.inl (hh ▸ List.mem_cons_self _ _)
        · rcases ih rest c hh with hh2 | hh2
          · exact Or.inl (List.mem_cons_of_mem _ hh2)
          · exact Or.inr hh2

theorem pyReplace_subset (s pat rep : String) :
    ∀ c ∈ (pyReplace s pat rep).data, c ∈ s.data ∨ c ∈ rep.data := by
  intro c hc
  exact replaceGo_subset pat.data rep.data s.data.length s.data c hc

theorem splitWsGo_subset : ∀ (l cur : List Char) (w : List Char), w ∈ splitWsGo cur l →
    ∀ c ∈ w, c ∈ cur ∨ c ∈ l := by
  intro l
  induction l with
  | nil =>
    intro cur w hw c hc
    rw [splitWsGo] at hw
    by_cases hcur : cur = []
    · rw [if_pos hcur] at hw; cases hw
    · rw [if_neg hcur] at hw
      rcases List.mem_singleton.mp hw with rfl
      exact Or.inl (List.mem_reverse.mp hc)
  | cons d rest ih =>
    intro cur w hw c hc
    rw [splitWsGo] at hw
    by_cases hsp : pySpace d = true
    · rw [if_pos hsp] at hw
      by_cases hcur : cur = []
      · rw [if_pos hcur] at hw
        rcases ih [] w hw c hc with hh | hh
        · cases hh
        · exact Or.inr (List.mem_cons_of_mem _ hh)
      · rw [if_neg hcur] at hw
        rcases List.mem_cons.mp hw with hh | hh
        · subst hh
          exact Or.inl (List.mem_reverse.mp hc)
        · rcases ih [] w hh c hc with hh2 | hh2
          · cases hh2
          · exact Or.inr (List.mem_cons_of_mem _ hh2)
    · rw [if_neg hsp] at hw
      rcases ih (d :: cur) w hw c hc with hh | hh
      · rcases List.mem_cons.mp hh with hh2 | hh2
        · exact Or.inr (hh2 ▸ List.mem_cons_self _ _)
        · exact Or.inl hh2
      · exact Or.inr (List.mem_cons_of_mem _ hh)

theorem pyJoin_subset (sep : String) :
    ∀ (parts : List String) (c : Char), c ∈ (pyJoin sep parts).data →
      c ∈ sep.data ∨ ∃ w ∈ parts, c ∈ w.data := by
  intro parts
  induction parts with
  | nil => intro c hc; cases hc
  | cons w ws ih =>
    intro c hc
    cases ws with
    | nil =>
      refine Or.inr ⟨w, List.mem_singleton_self w, ?_⟩
      exact hc
    | cons v vs =>
      have hc2 : c ∈ (w ++ sep ++ pyJoin sep (v :: vs)).data := hc
      rw [String.data_append, String.data_append] at hc2
      rcases List.mem_append.mp hc2 with hh | hh
      · rcases List.mem_append.mp hh with hh2 | hh2
        · exact Or.inr ⟨w, List.mem_cons_self _ _, hh2⟩
        · exact Or.inl hh2
      · rcases ih c hh with hh2 | ⟨w2, hw2, hcw2⟩
        · exact Or.inl hh2
        · exact Or.inr ⟨w2, List.mem_cons_of_mem _ hw2, hcw2⟩

theorem pySplitWs_subset (s : String) :
    ∀ w ∈ pySplitWs s, ∀ c ∈ w.data, c ∈ s.data := by
  intro w hw c hc
  obtain ⟨l, hl, rfl⟩ := List.mem_map.mp hw
  rcases splitWsGo_subset s.data [] l hl c hc with hh | hh
  · cases hh
  · exact hh

theorem apply_replacements_ascii {t : String} (h : asciiL t.data) :
    asciiL (apply_replacements t).data := by
  intro c hc
  have h1 : asciiL (pyStrip t).data := fun x hx => h x (pyStrip_subset t x hx)
  set t1 := pyStrip t with ht1
  set t2 := if pyStartsWith (pyLowerStr t1) "dr. " || pyStartsWith (pyLowerStr t1) "dr " then
    splitFirstSpaceRest t1 else t1 with ht2
  have h2 : asciiL t2.data := by
    rw [ht2]
    by_cases hd : (pyStartsWith (pyLowerStr t1) "dr. " || pyStartsWith (pyLowerStr t1) "dr ") = true
    · rw [if_pos hd]
      exact fun x hx => h1 x (splitFirstSpaceRest_subset t1 x hx)
    · rw [if_neg hd]
      exact h1
  have hs : asciiL (String.data "s ") := by unfold asciiL; decide
  have h3 : asciiL (pyReplace t2 "syed " "s ").data := by
    intro x hx
    rcases pyReplace_subset t2 "syed " "s " x hx with hh | hh
    · exact h2 x hh
    · exact hs x hh
  have h4 : asciiL (pyReplace (pyReplace t2 "syed " "s ") "Syed " "s ").data := by
    intro x hx
    rcases pyReplace_subset _ "Syed " "s " x hx with hh | hh
    · exact h3 x hh
    · exact hs x hh
  have h5 : asciiL (pyReplace (pyReplace (pyReplace t2 "syed " "s ") "Syed " "s ")
      "syeda " "s ").data := by
    intro x hx
    rcases pyReplace_subset _ "syeda " "s " x hx with hh | hh
    · exact h4 x hh
    · exact hs x hh
  have h6 : asciiL (pyReplace (pyReplace (pyReplace (pyReplace t2 "syed " "s ") "Syed " "s ")
      "syeda " "s ") "Syeda " "s ").data := by
    intro x hx
    rcases pyReplace_subset _ "Syeda " "s " x hx with hh | hh
    · exact h5 x hh
    · exact hs x hh
  rcases pyJoin_subset " " _ c hc with hh | ⟨w, hw, hcw⟩
  · rcases List.mem_singleton.mp hh with rfl
    decide
  · exact h6 c (pySplitWs_subset _ w hw c hcw)

theorem stripQuotes_subset (s : String) : ∀ c ∈ (stripQuotes s).data, c ∈ s.data := by
  intro c hc
  have hc2 : c ∈ ((s.data.dropWhile (fun c => c = dq || c = Char.ofNat 39)).reverse.dropWhile
      (fun c => c = dq || c = Char.ofNat 39)).reverse := hc
  rw [List.mem_reverse] at hc2
  have hc3 := (List.dropWhile_sublist _).subset hc2
  rw [List.mem_reverse] at hc3
  exact (List.dropWhile_sublist _).subset hc3

theorem clean_email_ascii {s : String} (h : asciiL s.data) :
    asciiL (clean_email s).data := by
  intro c hc
  obtain ⟨c0, hc0, rfl⟩ := List.mem_map.mp hc
  have h1 := pyStrip_subset _ c0 (stripQuotes_subset _ c0 hc0)
  have h2 : c0 ∈ s.data := List.filter_subset' _ h1
  exact (pyLowerChar_ascii (h c0 h2)).1

theorem emailLocalPart_subset (s : String) : ∀ c ∈ (emailLocalPart s).data, c ∈ s.data :=
  fun c hc => List.takeWhile_subset _ hc

theorem usernameChar_of_lower_digit {c : Char}
    (h : ('a' ≤ c ∧ c ≤ 'z') ∨ ('0' ≤ c ∧ c ≤ '9')) : usernameChar c = true := by
  unfold usernameChar
  simp only [Bool.or_eq_true, Bool.and_eq_true, decide_eq_true_eq]
  tauto

theorem dget_mem {r : Dict} {k v : String} (h : dget r k = some v) : (k, v) ∈ r := by
  induction r with
  | nil => cases h
  | cons p rest ih =>
    obtain ⟨k2, v2⟩ := p
    rw [dget] at h
    by_cases hk : k2 = k
    · rw [if_pos hk] at h
      injection h with h
      subst hk; subst h
      exact List.mem_cons_self _ _
    · rw [if_neg hk] at h
      exact List.mem_cons_of_mem _ (ih h)

theorem dgetD_ascii {r : Dict} (hr : ∀ p ∈ r, asciiL (Prod.snd p).data) (k : String) :
    asciiL (dgetD r k "").data := by
  unfold dgetD
  cases hd : dget r k with
  | none => intro c hc; cases hc
  | some v => exact hr (k, v) (dget_mem hd)

theorem normalize_row_keys_ascii {r br : Dict} (h : normalize_row_keys r = .ok br)
    (hr : ∀ p ∈ r, asciiL (Prod.snd p).data) : ∀ p ∈ br, asciiL (Prod.snd p).data := by
  unfold normalize_row_keys at h
  cases hfn : findCol r ["firstname", "givenname", "forename", "first"] with
  | none => rw [hfn] at h; cases h
  | some fk =>
    cases hln : findCol r ["lastname", "surname", "familyname", "last"] with
    | none => rw [hfn, hln] at h; cases h
    | some lk =>
      cases hem : findCol r ["emailaddress", "email", "mail", "emailid", "emailaddr", "eaddress"] with
      | none => rw [hfn, hln, hem] at h; cases h
      | some ek =>
        rw [hfn, hln, hem] at h
        cases hci : findCol r ["courseids", "courseid", "course"] with
        | none =>
          rw [hci] at h
          simp only [Except.ok.injEq] at h
          subst h
          intro p hp
          rcases List.mem_cons.mp hp with rfl | hp
          · exact dgetD_ascii hr fk
          rcases List.mem_cons.mp hp with rfl | hp
          · exact dgetD_ascii hr lk
          rcases List.mem_cons.mp hp with rfl | hp
          · exact dgetD_ascii hr ek
          cases hp
        | some ck =>
          rw [hci] at h
          simp only [Except.ok.injEq] at h
          subst h
          intro p hp
          rcases List.mem_append.mp hp with hp | hp
          · rcases List.mem_cons.mp hp with rfl | hp
            · exact dgetD_ascii hr fk
            rcases List.mem_cons.mp hp with rfl | hp
            · exact dgetD_ascii hr lk
            rcases List.mem_cons.mp hp with rfl | hp
            · exact dgetD_ascii hr ek
            cases hp
          · rcases List.mem_singleton.mp hp with rfl
            exact dgetD_ascii hr ck

theorem candidate_chars {base : String}
    (hb : ∀ c ∈ base.data, ('a' ≤ c ∧ c ≤ 'z') ∨ ('0' ≤ c ∧ c ≤ '9')) (n : Nat) :
    ∀ c ∈ (candAt base n).data, usernameChar c = true := by
  intro c hc
  unfold candAt at hc
  by_cases hn : n = 0
  · rw [if_pos hn] at hc
    exact usernameChar_of_lower_digit (hb c hc)
  · rw [if_neg hn] at hc
    rw [String.data_append] at hc
    rcases List.mem_append.mp hc with hh | hh
    · exact usernameChar_of_lower_digit (hb c hh)
    · exact usernameChar_of_lower_digit (Or.inr (pyStr_digits n c hh))

theorem base_chars {br : Dict} (hbr : ∀ p ∈ br, asciiL (Prod.snd p).data) :
    ∀ c ∈ (pyOr (ascii_slug (apply_replacements
        (dgetD br "First Name" "" ++ dgetD br "Last Name" "")))
      (pyOr (ascii_slug (emailLocalPart (clean_email (dgetD br "Email Address" ""))))
        "user")).data,
      ('a' ≤ c ∧ c ≤ 'z') ∨ ('0' ≤ c ∧ c ≤ '9') := by
  have hcat : asciiL (dgetD br "First Name" "" ++ dgetD br "Last Name" "").data := by
    intro c hc
    rw [String.data_append] at hc
    rcases List.mem_append.mp hc with hh | hh
    · exact dgetD_ascii hbr "First Name" c hh
    · exact dgetD_ascii hbr "Last Name" c hh
  have h1 := ascii_slug_chars (apply_replacements_ascii hcat)
  have hemlp : asciiL (emailLocalPart (clean_email (dgetD br "Email Address" ""))).data :=
    fun c hc => clean_email_ascii (dgetD_ascii hbr "Email Address") c
      (emailLocalPart_subset _ c hc)
  have h2 := ascii_slug_chars hemlp
  have h3 : ∀ c ∈ ("user" : String).data, ('a' ≤ c ∧ c ≤ 'z') ∨ ('0' ≤ c ∧ c ≤ '9') := by
    decide
  intro c hc
  unfold pyOr at hc
  by_cases hA : ascii_slug (apply_replacements
      (dgetD br "First Name" "" ++ dgetD br "Last Name" "")) = ""
  · rw [if_pos hA] at hc
    by_cases hB : ascii_slug (emailLocalPart (clean_email (dgetD br "Email Address" ""))) = ""
    · rw [if_pos hB] at hc
      exact h3 c hc
    · rw [if_neg hB] at hc
      exact h2 c hc
  · rw [if_neg hA] at hc
    exact h1 c hc

/-- Invariant of the `make_usernames` loop on ASCII batches: every
character of every produced username is in the username-pattern class. -/
theorem mu_go_ascii (rows : List Dict) :
    ∀ counts used out, make_usernames_go counts used rows = .ok out →
      (∀ r ∈ rows, ∀ p ∈ r, asciiL (Prod.snd p).data) →
      ∀ un ∈ usernamesOf out, ∀ c ∈ un.data, usernameChar c = true := by
  induction rows with
  | nil =>
    intro counts used out h _
    simp only [make_usernames_go, Except.ok.injEq] at h
    subst h
    simp [usernamesOf]
  | cons r rs ih =>
    intro counts used out h hasc
    rw [make_usernames_go] at h
    by_cases hb : blankRow r = true
    · rw [if_pos hb] at h
      exact ih counts used out h (fun r2 hr2 => hasc r2 (List.mem_cons_of_mem _ hr2))
    · rw [if_neg hb] at h
      cases hnr : normalize_row_keys r with
      | error e => rw [hnr] at h; cases h
      | ok base_row =>
        rw [hnr] at h
        simp only at h
        set base := pyOr (ascii_slug (apply_replacements
          (dgetD base_row "First Name" "" ++ dgetD base_row "Last Name" "")))
          (pyOr (ascii_slug (emailLocalPart (clean_email (dgetD base_row "Email Address" ""))))
            "user") with hbase
        set suffix := bump_candidate base used (used.length + 1)
          ((lookupNat counts base).getD 0) with hsuffix
        set candidate := candAt base suffix with hcand
        cases hrec : make_usernames_go (setNat counts base suffix) (candidate :: used) rs with
        | error e => rw [hrec] at h; cases h
        | ok out2 =>
          rw [hrec] at h
          simp only [Except.ok.injEq] at h
          subst h
          have hbr : ∀ p ∈ base_row, asciiL (Prod.snd p).data :=
            normalize_row_keys_ascii hnr (hasc r (List.mem_cons_self _ _))
          have hcandchars : ∀ c ∈ candidate.data, usernameChar c = true := by
            rw [hcand]
            exact candidate_chars (by rw [hbase]; exact base_chars hbr) suffix
          intro un hun
          have hus : usernamesOf (mkOutRow (cap_words (dgetD base_row "First Name" ""))
              (cap_words (dgetD base_row "Last Name" ""))
              (clean_email (dgetD base_row "Email Address" ""))
              (pyStrip (dgetD base_row "Course IDs" "")) candidate :: out2) =
              candidate :: usernamesOf out2 := by
            simp [usernamesOf, dgetD_mkOutRow_username]
          rw [hus] at hun
          rcases List.mem_cons.mp hun with rfl | hun
          · exact hcandchars
          · exact ih _ _ _ hrec (fun r2 hr2 => hasc r2 (List.mem_cons_of_mem _ hr2)) un hun

/-! ## Claim C1 -/

set_option maxRecDepth 40000 in
/-- C1, counterexample to the length bound: `make_usernames` never
truncates, so a 101-character first name yields a 102-character username
(the `> 100` check lives in `validate_row`, which runs later). -/
theorem C1_counterexample :
    (make_usernames [[("First Name", (⟨List.replicate 101 'a'⟩ : String)), ("Last Name", "b"),
        ("Email Address", "a@b.c")]]).map usernamesOf =
      .ok [(⟨List.replicate 101 'a' ++ ['b']⟩ : String)] ∧
    100 < ((⟨List.replicate 101 'a' ++ ['b']⟩ : String) : String).length := by
  constructor
  · rfl
  · decide

/-- C1 (amended): the usernames produced by `make_usernames` are pairwise
distinct and non-empty; when every input value is ASCII they moreover
consist only of characters from the `[a-z0-9._-]` class (in fact lower-case
letters and digits).  The claim's `length ≤ 100` bound does not hold
(no truncation happens here), and for non-ASCII input the pattern can be
violated, because Python's `str.isalnum` keeps non-ASCII alphanumerics. -/
theorem C1_make_usernames_amended (rows out : List Dict)
    (h : make_usernames rows = .ok out) :
    (usernamesOf out).Nodup ∧ (∀ un ∈ usernamesOf out, un ≠ "") ∧
    ((∀ r ∈ rows, ∀ p ∈ r, asciiL (Prod.snd p).data) →
      ∀ un ∈ usernamesOf out, un.data ≠ [] ∧ ∀ c ∈ un.data, usernameChar c = true) := by
  obtain ⟨_, hnd, hne⟩ := mu_go_invariant rows [] [] out h
  refine ⟨hnd, hne, fun hasc un hun => ⟨?_, mu_go_ascii rows [] [] out h hasc un hun⟩⟩
  intro hd
  apply hne un hun
  cases un with
  | mk l => cases hd; rfl

/-! ## Claim C7 -/

theorem nav_loop_first_free (ex : String → Bool) (b : String) (used : List String) (f : Nat)
    (hmem : b ∉ used) (hex : ex b = false) :
    nav_loop ex b used (f + 1) 0 =
      (some (b, none), [RemoteCall.getUsersByField "username" [b]]) := by
  rw [nav_loop]
  have hc : candAt b 0 = b := rfl
  rw [hc, decide_eq_false hmem, hex]
  simp

theorem nav_loop_second_free (ex : String → Bool) (b : String) (f : Nat)
    (hfree : ∀ c, ex c = false) :
    nav_loop ex b [b] (f + 2) 0 =
      (some (b ++ pyStr 1, some (rnote (b ++ pyStr 1) b)),
       [RemoteCall.getUsersByField "username" [b],
        RemoteCall.getUsersByField "username" [b ++ pyStr 1]]) := by
  rw [nav_loop]
  have hc0 : candAt b 0 = b := rfl
  have hm0 : decide (b ∈ [b]) = true := decide_eq_true (List.mem_singleton_self b)
  rw [hc0, hm0]
  simp only [Bool.true_or, if_true]
  rw [nav_loop]
  have hc1 : candAt b 1 = b ++ pyStr 1 := rfl
  have hm1 : decide (b ++ pyStr 1 ∈ [b]) = false := by
    apply decide_eq_false
    intro hmem
    have := List.mem_singleton.mp hmem
    have h0 : (1 : Nat) = 0 := by
      apply (candAt_eq_base_iff b 1).mp
      rw [candAt, if_neg (by omega)]
      exact this
    cases h0
  rw [hc1, hm1, hfree (b ++ pyStr 1)]
  simp

/-- C7: in the reconciliation pass of `_process_job`, when two input rows
carry the identical base username `b` (and the remote reports every probed
candidate free), the first row keeps the bare base, the second is renamed
to `b ++ "1"` — the base with the smallest suffix whose candidate is not
already claimed in the batch — which differs from `b`, and the second row
carries the audit note quoting both the adjusted name and the original
base. -/
theorem C7_duplicate_base (probe : String → ProbeResult) (b : String) (u1 u2 : Dict)
    (fuel : Nat) (hfuel : 2 ≤ fuel)
    (h1 : dget u1 "Username" = some b) (h2 : dget u2 "Username" = some b)
    (hs1 : dtruthy (dget u1 "Status") = false) (hs2 : dtruthy (dget u2 "Status") = false)
    (hfree : ∀ c, moodle_username_exists c (probe c) = false) :
    reconcile probe fuel [(u1, none), (u2, none)] [] =
      some [((u1, none), [RemoteCall.getUsersByField "username" [b]]),
            ((dset u2 "Username" (b ++ pyStr 1), some (rnote (b ++ pyStr 1) b)),
             [RemoteCall.getUsersByField "username" [b],
              RemoteCall.getUsersByField "username" [b ++ pyStr 1]])] ∧
    b ++ pyStr 1 ≠ b ∧
    rnote (b ++ pyStr 1) b =
      "username adjusted to " ++ sq ++ (b ++ pyStr 1) ++ sq ++ " (base " ++ sq ++ b ++ sq
        ++ " exists)" := by
  have hne : b ++ pyStr 1 ≠ b := by
    intro hcontra
    have h0 : (1 : Nat) = 0 := by
      apply (candAt_eq_base_iff b 1).mp
      rw [candAt, if_neg (by omega)]
      exact hcontra
    cases h0
  refine ⟨?_, hne, rfl⟩
  obtain ⟨k, hk⟩ : ∃ k, fuel = k + 2 := ⟨fuel - 2, by omega⟩
  subst hk
  have hb1 : dgetD u1 "Username" "" = b := by rw [dgetD, h1]; rfl
  have hb2 : dgetD u2 "Username" "" = b := by rw [dgetD, h2]; rfl
  have hrow2 : reconcile probe (k + 2) [(u2, none)] [b] =
      some [((dset u2 "Username" (b ++ pyStr 1), some (rnote (b ++ pyStr 1) b)),
             [RemoteCall.getUsersByField "username" [b],
              RemoteCall.getUsersByField "username" [b ++ pyStr 1]])] := by
    rw [reconcile, hs2]
    simp only [Bool.false_eq_true, if_false]
    rw [hb2, next_available_username,
      nav_loop_second_free (fun c => moodle_username_exists c (probe c)) b k hfree]
    simp [hne, reconcile]
  rw [reconcile, hs1]
  simp only [Bool.false_eq_true, if_false]
  rw [hb1, next_available_username,
    nav_loop_first_free (fun c => moodle_username_exists c (probe c)) b [] (k + 1)
      (List.not_mem_nil b) (hfree b)]
  simp [hrow2]

/-- Witness for `C7_duplicate_base` at a concrete batch. -/
theorem C7_duplicate_base_witness :
    reconcile (fun _ => ProbeResult.list []) 2
        [([("Username", "ann")], none), ([("Username", "ann")], none)] [] =
      some [((([("Username", "ann")] : Dict), (none : Option String)),
             [RemoteCall.getUsersByField "username" ["ann"]]),
            ((dset [("Username", "ann")] "Username" ("ann" ++ pyStr 1),
              some (rnote ("ann" ++ pyStr 1) "ann")),
             [RemoteCall.getUsersByField "username" ["ann"],
              RemoteCall.getUsersByField "username" ["ann" ++ pyStr 1]])] ∧
    "ann" ++ pyStr 1 ≠ "ann" ∧
    rnote ("ann" ++ pyStr 1) "ann" =
      "username adjusted to " ++ sq ++ ("ann" ++ pyStr 1) ++ sq ++ " (base " ++ sq ++ "ann"
        ++ sq ++ " exists)" :=
  C7_duplicate_base (fun _ => ProbeResult.list []) "ann" [("Username", "ann")]
    [("Username", "ann")] 2 (by omega) (by rfl) (by rfl) (by rfl) (by rfl)
    (fun c => rfl)

/-- Witness for `C1_make_usernames_amended` on a concrete ASCII batch. -/
theorem C1_make_usernames_amended_witness :
    (usernamesOf [mkOutRow "Ann" "Lee" "a@b.c" "" "annlee"]).Nodup ∧
    (∀ un ∈ usernamesOf [mkOutRow "Ann" "Lee" "a@b.c" "" "annlee"], un ≠ "") ∧
    ((∀ r ∈ [[("First Name", "Ann"), ("Last Name", "Lee"), ("Email Address", "a@b.c")]],
        ∀ p ∈ r, asciiL (Prod.snd p).data) →
      ∀ un ∈ usernamesOf [mkOutRow "Ann" "Lee" "a@b.c" "" "annlee"],
        un.data ≠ [] ∧ ∀ c ∈ un.data, usernameChar c = true) :=
  C1_make_usernames_amended
    [[("First Name", "Ann"), ("Last Name", "Lee"), ("Email Address", "a@b.c")]]
    [mkOutRow "Ann" "Lee" "a@b.c" "" "annlee"] (by rfl)

/-! ## Lemmas about the creation fallback chain -/

/-- Did the creation call succeed (a list answer with an id)? -/
def isCreated : CreateResp → Bool
  | .created _ => true
  | _ => false

/-- Does the creation call raise out of `_attempt_create_single` (an `id`
value `int()` rejects)? -/
def isRaise : CreateResp → Bool
  | .badId _ => true
  | _ => false

/-- The prefix of the variant list actually attempted: everything up to and
including the first variant whose response is a successful creation. -/
def upToCreated (respf : Nat → CreateResp) : List Nat → List Nat
  | [] => []
  | v :: vs => if isCreated (respf v) then [v] else v :: upToCreated respf vs

theorem dget_dset_same (r : Dict) (k v : String) : dget (dset r k v) k = some v := by
  induction r with
  | nil => simp [dset, dget]
  | cons p rest ih =>
    obtain ⟨k2, v2⟩ := p
    rw [dset]
    by_cases hk : k2 = k
    · rw [if_pos hk, dget, if_pos hk]
    · rw [if_neg hk, dget, if_neg hk]
      exact ih

theorem dget_dset_ne (r : Dict) {k k2 : String} (h : k2 ≠ k) (v : String) :
    dget (dset r k2 v) k = dget r k := by
  induction r with
  | nil => simp [dset, dget, h]
  | cons p rest ih =>
    obtain ⟨k3, v3⟩ := p
    rw [dset]
    by_cases hk : k3 = k2
    · rw [if_pos hk, dget, dget]
      subst hk
      rw [if_neg h, if_neg h]
    · rw [if_neg hk, dget, dget]
      by_cases hk3 : k3 = k
      · rw [if_pos hk3, if_pos hk3]
      · rw [if_neg hk3, if_neg hk3]
        exact ih

theorem str_ne_empty_iff (s : String) : s ≠ "" ↔ s.data ≠ [] := by
  constructor
  · intro h hd
    exact h (congrArg String.mk hd)
  · intro h hd
    exact h (congrArg String.data hd)

theorem str_append_ne_empty (a b : String) (ha : a ≠ "") : a ++ b ≠ "" := by
  rw [str_ne_empty_iff, String.data_append]
  intro h
  rcases List.append_eq_nil.mp h with ⟨h1, _⟩
  exact (str_ne_empty_iff a).mp ha h1

theorem createOutcome_not_created {v : Nat} {r : CreateResp} (hnr : isRaise r = false)
    (hnc : isCreated r = false) :
    ∃ m, createOutcome v r = .ok (false, m, none) ∧ m ≠ "" := by
  have hx : ("‚ùå " : String) ≠ "" := by decide
  have hy : ("‚ÑπÔ∏è Unexpected: " : String) ≠ "" := by decide
  have hz : ("‚ùå Network error: " : String) ≠ "" := by decide
  cases r with
  | created i => cases hnc
  | badId e => cases hnr
  | appExn msg ec dbg =>
    refine ⟨_, rfl, ?_⟩
    exact str_append_ne_empty _ _ (str_append_ne_empty _ _ (str_append_ne_empty _ _
      (str_append_ne_empty _ _ (str_append_ne_empty _ _ (str_append_ne_empty _ _
        (str_append_ne_empty _ _ hx))))))
  | unexpected raw =>
    refine ⟨_, rfl, ?_⟩
    exact str_append_ne_empty _ _ (str_append_ne_empty _ _ (str_append_ne_empty _ _
      (str_append_ne_empty _ _ hy)))
  | reqErr e =>
    refine ⟨_, rfl, ?_⟩
    exact str_append_ne_empty _ _ (str_append_ne_empty _ _ (str_append_ne_empty _ _
      (str_append_ne_empty _ _ hz)))

theorem createOutcome_created {v : Nat} {r : CreateResp} (hc : isCreated r = true) :
    ∃ m i, createOutcome v r = .ok (true, m, some i) := by
  cases r with
  | created i => exact ⟨_, i, rfl⟩
  | badId e => cases hc
  | appExn msg ec dbg => cases hc
  | unexpected raw => cases hc
  | reqErr e => cases hc

theorem create_loop_go_fail_step (u : Dict) (pwf : Nat → String) (respf : Nat → CreateResp)
    (v : Nat) (vs : List Nat) (acc : Bool × String × Option Int) {m : String}
    (hm : createOutcome v (respf v) = .ok (false, m, none)) :
    create_loop_go u pwf respf (v :: vs) acc =
      ((create_loop_go (if v = 1 ∨ v = 2 then u else dset u "Password" (pwf v))
          pwf respf vs (false, m, none)).1,
       (create_loop_go (if v = 1 ∨ v = 2 then u else dset u "Password" (pwf v))
          pwf respf vs (false, m, none)).2.1,
       RemoteCall.createUsers (dgetD u "Username" "") v ::
         (create_loop_go (if v = 1 ∨ v = 2 then u else dset u "Password" (pwf v))
            pwf respf vs (false, m, none)).2.2) := by
  rw [create_loop_go, attempt_create_single, hm]
  simp

theorem create_loop_go_succ_step (u : Dict) (pwf : Nat → String) (respf : Nat → CreateResp)
    (v : Nat) (vs : List Nat) (acc : Bool × String × Option Int) {m : String} {oid : Option Int}
    (hm : createOutcome v (respf v) = .ok (true, m, oid)) :
    create_loop_go u pwf respf (v :: vs) acc =
      (.ok (true, m, oid), (if v = 1 ∨ v = 2 then u else dset u "Password" (pwf v)),
       [RemoteCall.createUsers (dgetD u "Username" "") v]) := by
  rw [create_loop_go, attempt_create_single, hm]
  simp

theorem create_loop_go_calls (pwf : Nat → String) (respf : Nat → CreateResp) :
    ∀ (vs : List Nat) (u : Dict) (acc : Bool × String × Option Int),
      (∀ v ∈ vs, isRaise (respf v) = false) →
      (create_loop_go u pwf respf vs acc).2.2 =
        (upToCreated respf vs).map (fun v => RemoteCall.createUsers (dgetD u "Username" "") v) := by
  intro vs
  induction vs with
  | nil => intro u acc _; rfl
  | cons v vs ih =>
    intro u acc hnr
    have hnrv : isRaise (respf v) = false := hnr v (List.mem_cons_self _ _)
    by_cases hc : isCreated (respf v) = true
    · obtain ⟨m, i, hm⟩ := createOutcome_created hc
      rw [create_loop_go_succ_step u pwf respf v vs acc hm]
      rw [upToCreated, if_pos hc]
      rfl
    · have hc2 : isCreated (respf v) = false := by
        cases hcc : isCreated (respf v)
        · rfl
        · exact absurd hcc hc
      obtain ⟨m, hm, _⟩ := createOutcome_not_created hnrv hc2
      have hup : upToCreated respf (v :: vs) = v :: upToCreated respf vs := by
        rw [upToCreated]
        rw [if_neg (by intro hcc; rw [hc2] at hcc; exact Bool.false_ne_true hcc)]
      rw [create_loop_go_fail_step u pwf respf v vs acc hm, hup, List.map_cons]
      simp only
      by_cases hv : v = 1 ∨ v = 2
      · rw [if_pos hv, ih u _ (fun w hw => hnr w (List.mem_cons_of_mem _ hw))]
      · rw [if_neg hv, ih _ _ (fun w hw => hnr w (List.mem_cons_of_mem _ hw))]
        have hun : dgetD (dset u "Password" (pwf v)) "Username" "" = dgetD u "Username" "" := by
          unfold dgetD
          rw [dget_dset_ne u (by decide) (pwf v)]
        rw [hun]

/-- When every variant fails cleanly, the fallback chain attempts exactly
variants 1–4 in order, ends with variant 4's outcome, and leaves the last
generated password in the row. -/
theorem create_loop_all_fail (u : Dict) (pwf : Nat → String) (respf : Nat → CreateResp)
    (hf : ∀ v ∈ [1, 2, 3, 4], isRaise (respf v) = false ∧ isCreated (respf v) = false) :
    ∃ m, createOutcome 4 (respf 4) = .ok (false, m, none) ∧ m ≠ "" ∧
      create_loop u pwf respf =
        (.ok (false, m, none), dset (dset u "Password" (pwf 3)) "Password" (pwf 4),
         [1, 2, 3, 4].map (fun v => RemoteCall.createUsers (dgetD u "Username" "") v)) := by
  obtain ⟨m1, hm1, _⟩ := createOutcome_not_created (hf 1 (by decide)).1 (hf 1 (by decide)).2
  obtain ⟨m2, hm2, _⟩ := createOutcome_not_created (hf 2 (by decide)).1 (hf 2 (by decide)).2
  obtain ⟨m3, hm3, _⟩ := createOutcome_not_created (hf 3 (by decide)).1 (hf 3 (by decide)).2
  obtain ⟨m4, hm4, hm4ne⟩ := createOutcome_not_created (hf 4 (by decide)).1 (hf 4 (by decide)).2
  refine ⟨m4, hm4, hm4ne, ?_⟩
  rw [create_loop]
  rw [create_loop_go_fail_step _ pwf respf 1 _ _ hm1]
  simp only [show (1 = 1 ∨ 1 = 2) = True by simp, if_true]
  rw [create_loop_go_fail_step _ pwf respf 2 _ _ hm2]
  simp only [show (2 = 1 ∨ 2 = 2) = True by simp, if_true]
  rw [create_loop_go_fail_step _ pwf respf 3 _ _ hm3]
  simp only [show (3 = 1 ∨ 3 = 2) = False by simp, if_false]
  rw [create_loop_go_fail_step _ pwf respf 4 _ _ hm4]
  simp only [show (4 = 1 ∨ 4 = 2) = False by simp, if_false]
  rw [create_loop_go]
  have hu3 : dgetD (dset u "Password" (pwf 3)) "Username" "" = dgetD u "Username" "" := by
    unfold dgetD
    rw [dget_dset_ne u (by decide) (pwf 3)]
  simp [hu3]

/-- When no variant's response raises, the fallback chain returns normally,
touches no key but `Password`, and the final `Password` value is determined
by how far the chain ran: unchanged if it stopped at variant 1 or 2,
variant 3's generated password if it stopped there, variant 4's otherwise. -/
theorem create_loop_noraise (u : Dict) (pwf : Nat → String) (respf : Nat → CreateResp)
    (hnr : ∀ v ∈ [1, 2, 3, 4], isRaise (respf v) = false) :
    ∃ r u2 calls, create_loop u pwf respf = (.ok r, u2, calls) ∧
      (∀ k, k ≠ "Password" → dget u2 k = dget u k) ∧
      dget u2 "Password" =
        (if isCreated (respf 1) then dget u "Password"
         else if isCreated (respf 2) then dget u "Password"
         else if isCreated (respf 3) then some (pwf 3)
         else some (pwf 4)) := by
  rw [create_loop]
  by_cases h1 : isCreated (respf 1) = true
  · obtain ⟨m, i, hm⟩ := createOutcome_created h1
    rw [create_loop_go_succ_step _ _ _ _ _ _ hm]
    refine ⟨_, _, _, rfl, ?_, ?_⟩
    · intro k _; simp
    · simp [h1]
  · have h1f : isCreated (respf 1) = false := by
      cases hc : isCreated (respf 1); rfl; exact absurd hc h1
    obtain ⟨m1, hm1, _⟩ := createOutcome_not_created (hnr 1 (by decide)) h1f
    rw [create_loop_go_fail_step _ _ _ _ _ _ hm1]
    simp only [show (1 = 1 ∨ 1 = 2) = True by simp, if_true]
    by_cases h2 : isCreated (respf 2) = true
    · obtain ⟨m, i, hm⟩ := createOutcome_created h2
      rw [create_loop_go_succ_step _ _ _ _ _ _ hm]
      refine ⟨_, _, _, rfl, ?_, ?_⟩
      · intro k _; simp
      · simp [h1f, h2]
    · have h2f : isCreated (respf 2) = false := by
        cases hc : isCreated (respf 2); rfl; exact absurd hc h2
      obtain ⟨m2, hm2, _⟩ := createOutcome_not_created (hnr 2 (by decide)) h2f
      rw [create_loop_go_fail_step _ _ _ _ _ _ hm2]
      simp only [show (2 = 1 ∨ 2 = 2) = True by simp, if_true]
      by_cases h3 : isCreated (respf 3) = true
      · obtain ⟨m, i, hm⟩ := createOutcome_created h3
        rw [create_loop_go_succ_step _ _ _ _ _ _ hm]
        simp only [show (3 = 1 ∨ 3 = 2) = False by simp, if_false]
        refine ⟨_, _, _, rfl, ?_, ?_⟩
        · intro k hk
          exact dget_dset_ne u (fun hc => hk hc.symm) (pwf 3)
        · simp [h1f, h2f, h3, dget_dset_same]
      · have h3f : isCreated (respf 3) = false := by
          cases hc : isCreated (respf 3); rfl; exact absurd hc h3
        obtain ⟨m3, hm3, _⟩ := createOutcome_not_created (hnr 3 (by decide)) h3f
        rw [create_loop_go_fail_step _ _ _ _ _ _ hm3]
        simp only [show (3 = 1 ∨ 3 = 2) = False by simp, if_false]
        by_cases h4 : isCreated (respf 4) = true
        · obtain ⟨m, i, hm⟩ := createOutcome_created h4
          rw [create_loop_go_succ_step _ _ _ _ _ _ hm]
          simp only [show (4 = 1 ∨ 4 = 2) = False by simp, if_false]
          refine ⟨_, _, _, rfl, ?_, ?_⟩
          · intro k hk
            rw [dget_dset_ne _ (fun hc => hk hc.symm) (pwf 4)]
            exact dget_dset_ne u (fun hc => hk hc.symm) (pwf 3)
          · simp [h1f, h2f, h3f, dget_dset_same]
        · have h4f : isCreated (respf 4) = false := by
            cases hc : isCreated (respf 4); rfl; exact absurd hc h4
          obtain ⟨m4, hm4, _⟩ := createOutcome_not_created (hnr 4 (by decide)) h4f
          rw [create_loop_go_fail_step _ _ _ _ _ _ hm4]
          simp only [show (4 = 1 ∨ 4 = 2) = False by simp, if_false]
          rw [create_loop_go]
          refine ⟨_, _, _, rfl, ?_, ?_⟩
          · intro k hk
            rw [dget_dset_ne _ (fun hc => hk hc.symm) (pwf 4)]
            exact dget_dset_ne u (fun hc => hk hc.symm) (pwf 3)
          · simp [h1f, h2f, h3f, dget_dset_same]

theorem pyOr_empty_right (a : String) : pyOr a "" = a := by
  unfold pyOr
  by_cases h : a = ""
  · rw [if_pos h, h]
  · rw [if_neg h]

/-- The enrolment section always (only) rewrites the row's `Enrol Status`. -/
theorem enrol_part_fst (w : Dict) (oid : Option Int) (cids : List Nat) (renv : RowEnv)
    (roleid : Int) (pc : List RemoteCall) :
    ∃ es, (enrol_part w oid cids renv roleid pc).1 = dset w "Enrol Status" es := by
  unfold enrol_part
  exact ⟨_, rfl⟩

/-- Without a user id, the enrolment section makes no remote call. -/
theorem enrol_part_calls_none (w : Dict) (cids : List Nat) (renv : RowEnv) (roleid : Int)
    (pc : List RemoteCall) :
    (enrol_part w none cids renv roleid pc).2 = pc := by
  unfold enrol_part
  by_cases hc : cids = []
  · rw [if_pos hc]; simp
  · rw [if_neg hc]; simp

/-- `process_row` on a status-free row whose e-mail has no remote match
runs the creation branch. -/
theorem process_row_create_eq (exmap : List RemoteUser) (renv : RowEnv) (roleid : Int)
    (u : Dict) (note : Option String) (emv : String)
    (hst : dtruthy (dget u "Status") = false)
    (hem : dget u "Email Address" = some emv)
    (hex : lookupRU exmap (pyLowerStr emv) = none) :
    process_row exmap renv roleid (u, note) =
      (match create_loop u renv.pw renv.create with
       | (.exn e, u2, calls) => (dset u2 "Status" ("‚ùå Server error: " ++ e), calls)
       | (.ok (created_ok, msg, created_id), u2, calls) =>
         let msg2 := if created_ok ∧ note.getD "" ≠ "" then msg ++ " ‚Äî " ++ note.getD ""
           else msg
         let u3 := dset u2 "Status" (pyOr msg2 "‚ùå Unknown outcome")
         match dget u3 "Suspend Status" with
         | none => (dset u3 "Status" ("‚ùå Server error: " ++ keyErrorMsg "Suspend Status"), calls)
         | some sv =>
           let u4 := dset u3 "Suspend Status" (if created_ok then "Active" else pyOr sv "")
           enrol_part u4 created_id (parse_course_ids (pyStrip (dgetD u "Course IDs" "")))
             renv roleid calls) := by
  rw [process_row, hst]
  simp only [Bool.false_eq_true, if_false]
  rw [hem]
  simp only [hex]

/-! ## Claim C3 -/

/-- C3: the Row Processor's creation fallback.  First conjunct (for any
environment whose responses do not raise): the chain issues creation
requests for exactly the variants up to and including the first success, in
the order 1, 2, 3, 4.  Remaining conjuncts, under "every variant fails": the
row's terminal `Status` is variant 4's detailed failure message, its
`Suspend Status` keeps its prior value (empty for canonical rows), the
row's remote calls are exactly the four creation requests, and no
enrolment-related request (`enrol_manual_enrol_users` or
`core_enrol_get_users_courses`) is issued for the row. -/
theorem C3_creation_fallback (exmap : List RemoteUser) (renv : RowEnv) (roleid : Int)
    (u : Dict) (note : Option String) (emv sv : String)
    (hst : dtruthy (dget u "Status") = false)
    (hem : dget u "Email Address" = some emv)
    (hex : lookupRU exmap (pyLowerStr emv) = none)
    (hsv : dget u "Suspend Status" = some sv)
    (hfail : ∀ v ∈ [1, 2, 3, 4], isRaise (renv.create v) = false ∧
      isCreated (renv.create v) = false) :
    (∀ (w : Dict) (pwf : Nat → String) (respf : Nat → CreateResp),
      (∀ v ∈ [1, 2, 3, 4], isRaise (respf v) = false) →
      (create_loop w pwf respf).2.2 =
        (upToCreated respf [1, 2, 3, 4]).map
          (fun v => RemoteCall.createUsers (dgetD w "Username" "") v)) ∧
    ∃ m, createOutcome 4 (renv.create 4) = CallOutcome.ok (false, m, none) ∧
      dget (process_row exmap renv roleid (u, note)).1 "Status" = some m ∧
      dget (process_row exmap renv roleid (u, note)).1 "Suspend Status" = some sv ∧
      (process_row exmap renv roleid (u, note)).2 =
        [1, 2, 3, 4].map (fun v => RemoteCall.createUsers (dgetD u "Username" "") v) ∧
      (∀ role uid cid, RemoteCall.enrolManual role uid cid ∉
        (process_row exmap renv roleid (u, note)).2) ∧
      (∀ uid, RemoteCall.getUserCourses uid ∉ (process_row exmap renv roleid (u, note)).2) := by
  refine ⟨fun w pwf respf hnr => create_loop_go_calls pwf respf [1, 2, 3, 4] w _ hnr, ?_⟩
  obtain ⟨m, hm, hmne, hloop⟩ := create_loop_all_fail u renv.pw renv.create hfail
  have hrow : process_row exmap renv roleid (u, note) =
      enrol_part
        (dset (dset (dset (dset u "Password" (renv.pw 3)) "Password" (renv.pw 4)) "Status" m)
          "Suspend Status" (pyOr sv ""))
        none (parse_course_ids (pyStrip (dgetD u "Course IDs" ""))) renv roleid
        ([1, 2, 3, 4].map (fun v => RemoteCall.createUsers (dgetD u "Username" "") v)) := by
    rw [process_row_create_eq exmap renv roleid u note emv hst hem hex, hloop]
    simp only [Bool.false_eq_true, false_and, if_false]
    have hmsg : pyOr m "‚ùå Unknown outcome" = m := by
      unfold pyOr
      rw [if_neg hmne]
    rw [hmsg]
    have hsv2 : dget (dset (dset (dset u "Password" (renv.pw 3)) "Password" (renv.pw 4))
        "Status" m) "Suspend Status" = some sv := by
      rw [dget_dset_ne _ (by decide) m, dget_dset_ne _ (by decide) (renv.pw 4),
        dget_dset_ne _ (by decide) (renv.pw 3)]
      exact hsv
    rw [hsv2]
  obtain ⟨es, hes⟩ := enrol_part_fst
    (dset (dset (dset (dset u "Password" (renv.pw 3)) "Password" (renv.pw 4)) "Status" m)
      "Suspend Status" (pyOr sv ""))
    none (parse_course_ids (pyStrip (dgetD u "Course IDs" ""))) renv roleid
    ([1, 2, 3, 4].map (fun v => RemoteCall.createUsers (dgetD u "Username" "") v))
  have hcalls : (process_row exmap renv roleid (u, note)).2 =
      [1, 2, 3, 4].map (fun v => RemoteCall.createUsers (dgetD u "Username" "") v) := by
    rw [hrow]
    exact enrol_part_calls_none _ _ _ _ _
  refine ⟨m, hm, ?_, ?_, hcalls, ?_, ?_⟩
  · rw [hrow, hes, dget_dset_ne _ (by decide) es, dget_dset_ne _ (by decide) (pyOr sv ""),
      dget_dset_same]
  · rw [hrow, hes, dget_dset_ne _ (by decide) es, dget_dset_same, pyOr_empty_right]
  · intro role uid cid hmem
    rw [hcalls] at hmem
    obtain ⟨v, _, hv⟩ := List.mem_map.mp hmem
    cases hv
  · intro uid hmem
    rw [hcalls] at hmem
    obtain ⟨v, _, hv⟩ := List.mem_map.mp hmem
    cases hv

/-- A canonical test row. -/
def rowAnn : Dict :=
  [("Username", "ann"), ("First Name", "A"), ("Last Name", "B"),
   ("Email Address", "a@b.c"), ("Enrol Status", ""), ("Suspend Status", "")]

/-- A deterministic password oracle for witnesses. -/
def pwOracle : Nat → String := fun v => "PW" ++ pyStr v

/-- A per-row environment in which every creation attempt fails with a
transport error. -/
def failCreateRowEnv : RowEnv :=
  { pw := pwOracle, create := fun _ => CreateResp.reqErr "boom", upd := WsDictResp.other,
    courses := fun _ => CoursesResp.list [], enrol := fun _ => WsDictResp.other }

/-- Witness for `C3_creation_fallback` at a concrete all-fail run. -/
theorem C3_creation_fallback_witness :
    (∀ (w : Dict) (pwf : Nat → String) (respf : Nat → CreateResp),
      (∀ v ∈ [1, 2, 3, 4], isRaise (respf v) = false) →
      (create_loop w pwf respf).2.2 =
        (upToCreated respf [1, 2, 3, 4]).map
          (fun v => RemoteCall.createUsers (dgetD w "Username" "") v)) ∧
    ∃ m, createOutcome 4 (failCreateRowEnv.create 4) = CallOutcome.ok (false, m, none) ∧
      dget (process_row [] failCreateRowEnv 5 (rowAnn, none)).1 "Status" = some m ∧
      dget (process_row [] failCreateRowEnv 5 (rowAnn, none)).1 "Suspend Status" = some "" ∧
      (process_row [] failCreateRowEnv 5 (rowAnn, none)).2 =
        [1, 2, 3, 4].map (fun v => RemoteCall.createUsers (dgetD rowAnn "Username" "") v) ∧
      (∀ role uid cid, RemoteCall.enrolManual role uid cid ∉
        (process_row [] failCreateRowEnv 5 (rowAnn, none)).2) ∧
      (∀ uid, RemoteCall.getUserCourses uid ∉
        (process_row [] failCreateRowEnv 5 (rowAnn, none)).2) :=
  C3_creation_fallback [] failCreateRowEnv 5 rowAnn none "a@b.c" ""
    (by decide) (by decide) (by decide) (by decide) (by decide)

/-! ## Claim C8 -/

/-- `process_row`'s creation branch, with the fallback-chain result and the
Suspend-Status lookup supplied as equations. -/
theorem process_row_create_ok (exmap : List RemoteUser) (renv : RowEnv) (roleid : Int)
    (u : Dict) (note : Option String) (emv : String)
    (hst : dtruthy (dget u "Status") = false)
    (hem : dget u "Email Address" = some emv)
    (hex : lookupRU exmap (pyLowerStr emv) = none)
    {ok : Bool} {m : String} {oid : Option Int} {u2 : Dict} {calls : List RemoteCall}
    (hloop : create_loop u renv.pw renv.create = (.ok (ok, m, oid), u2, calls))
    {sv : String}
    (hsusp : dget (dset u2 "Status"
        (pyOr (if ok = true ∧ note.getD "" ≠ "" then m ++ " ‚Äî " ++ note.getD "" else m)
          "‚ùå Unknown outcome")) "Suspend Status" = some sv) :
    process_row exmap renv roleid (u, note) =
      enrol_part
        (dset (dset u2 "Status"
            (pyOr (if ok = true ∧ note.getD "" ≠ "" then m ++ " ‚Äî " ++ note.getD "" else m)
              "‚ùå Unknown outcome"))
          "Suspend Status" (if ok = true then "Active" else pyOr sv ""))
        oid (parse_course_ids (pyStrip (dgetD u "Course IDs" ""))) renv roleid calls := by
  rw [process_row_create_eq exmap renv roleid u note emv hst hem hex, hloop]
  simp only [hsusp]

/-- C8, counterexample: when every creation variant fails, the row keeps
the locally generated password written by the variant-4 attempt, so the
`Password` field is non-empty although no account was created (the
`Status` is variant 4's network-error message, and the environment has no
successful creation at all). -/
theorem C8_counterexample :
    dget (process_row [] failCreateRowEnv 5 (rowAnn, none)).1 "Password" =
      some ("PW" ++ pyStr 4) ∧
    ("PW" ++ pyStr 4 : String) ≠ "" ∧
    (∀ v ∈ [1, 2, 3, 4], isCreated (failCreateRowEnv.create v) = false) ∧
    dget (process_row [] failCreateRowEnv 5 (rowAnn, none)).1 "Status" =
      some "‚ùå Network error: boom [variant 4]" := by
  decide

/-- C8 (amended): the `Password` field of a row going through the creation
branch is determined by how far the variant chain runs — unchanged when
variant 1 or 2 succeeds, the locally generated password of variant 3 or 4
as soon as that variant is attempted, kept even when the attempt (and the
whole chain) fails; rows already carrying a terminal status are returned
untouched, so their `Password` is unchanged. -/
theorem C8_password_frame (exmap : List RemoteUser) (renv : RowEnv) (roleid : Int)
    (u : Dict) (note : Option String) (emv sv : String)
    (hst : dtruthy (dget u "Status") = false)
    (hem : dget u "Email Address" = some emv)
    (hex : lookupRU exmap (pyLowerStr emv) = none)
    (hsv : dget u "Suspend Status" = some sv)
    (hnr : ∀ v ∈ [1, 2, 3, 4], isRaise (renv.create v) = false) :
    dget (process_row exmap renv roleid (u, note)).1 "Password" =
      (if isCreated (renv.create 1) then dget u "Password"
       else if isCreated (renv.create 2) then dget u "Password"
       else if isCreated (renv.create 3) then some (renv.pw 3)
       else some (renv.pw 4)) ∧
    (∀ (w : Dict) (n2 : Option String), dtruthy (dget w "Status") = true →
      process_row exmap renv roleid (w, n2) = (w, [])) := by
  constructor
  · obtain ⟨r, u2, calls, hloop, hpres, hpw⟩ := create_loop_noraise u renv.pw renv.create hnr
    obtain ⟨ok, m, oid⟩ := r
    have hsusp : dget (dset u2 "Status"
        (pyOr (if ok = true ∧ note.getD "" ≠ "" then m ++ " ‚Äî " ++ note.getD "" else m)
          "‚ùå Unknown outcome")) "Suspend Status" = some sv := by
      rw [dget_dset_ne _ (by decide) _, hpres "Suspend Status" (by decide)]
      exact hsv
    rw [process_row_create_ok exmap renv roleid u note emv hst hem hex hloop hsusp]
    obtain ⟨es, hes⟩ := enrol_part_fst
      (dset (dset u2 "Status"
          (pyOr (if ok = true ∧ note.getD "" ≠ "" then m ++ " ‚Äî " ++ note.getD "" else m)
            "‚ùå Unknown outcome"))
        "Suspend Status" (if ok = true then "Active" else pyOr sv ""))
      oid (parse_course_ids (pyStrip (dgetD u "Course IDs" ""))) renv roleid calls
    rw [hes, dget_dset_ne _ (by decide) es, dget_dset_ne _ (by decide) _,
      dget_dset_ne _ (by decide) _]
    exact hpw
  · intro w n2 hw
    rw [process_row, if_pos hw]

/-- Witness for `C8_password_frame`: an environment where variant 3
succeeds, so the password written by the variant-3 attempt stays. -/
theorem C8_password_frame_witness :
    dget (process_row [] { failCreateRowEnv with
        create := fun v => if v = 3 then CreateResp.created 42 else CreateResp.reqErr "boom" }
        5 (rowAnn, none)).1 "Password" =
      (if isCreated (({ failCreateRowEnv with
          create := fun v => if v = 3 then CreateResp.created 42 else CreateResp.reqErr "boom" }
            : RowEnv).create 1) then dget rowAnn "Password"
       else if isCreated (({ failCreateRowEnv with
          create := fun v => if v = 3 then CreateResp.created 42 else CreateResp.reqErr "boom" }
            : RowEnv).create 2) then dget rowAnn "Password"
       else if isCreated (({ failCreateRowEnv with
          create := fun v => if v = 3 then CreateResp.created 42 else CreateResp.reqErr "boom" }
            : RowEnv).create 3) then some (({ failCreateRowEnv with
          create := fun v => if v = 3 then CreateResp.created 42 else CreateResp.reqErr "boom" }
            : RowEnv).pw 3)
       else some (({ failCreateRowEnv with
          create := fun v => if v = 3 then CreateResp.created 42 else CreateResp.reqErr "boom" }
            : RowEnv).pw 4)) ∧
    (∀ (w : Dict) (n2 : Option String), dtruthy (dget w "Status") = true →
      process_row [] { failCreateRowEnv with
          create := fun v => if v = 3 then CreateResp.created 42 else CreateResp.reqErr "boom" }
        5 (w, n2) = (w, [])) :=
  C8_password_frame [] { failCreateRowEnv with
      create := fun v => if v = 3 then CreateResp.created 42 else CreateResp.reqErr "boom" }
    5 rowAnn none "a@b.c" "" (by decide) (by decide) (by decide) (by decide) (by decide)

/-! ## Lemmas about `_process_job` -/

/-- Is this event a `row_update`? -/
def isRowUpdate : QItem → Bool
  | .row_update _ _ => true
  | _ => false

/-- The percent of a `progress` event. -/
def progressPercent : QItem → Option Nat
  | .progress _ _ p => some p
  | _ => none

/-- The percent reported by the last `progress` event of the stream. -/
def lastProgress (evs : List QItem) : Option Nat :=
  (evs.filterMap progressPercent).getLast?

theorem getLast?_cons_of_ne_nil {α : Type} (a : α) (l : List α) (h : l ≠ []) :
    (a :: l).getLast? = l.getLast? := by
  cases l with
  | nil => exact absurd rfl h
  | cons b bs => exact List.getLast?_cons_cons

theorem row_loop_count (exmap : List RemoteUser) (env : Env) (roleid : Int) (total : Nat) :
    ∀ (ps : List PRow) (idx : Nat),
      ((row_loop exmap env roleid total idx ps).1.filter isRowUpdate).length = ps.length := by
  intro ps
  induction ps with
  | nil => intro idx; rfl
  | cons p ps ih =>
    intro idx
    rw [row_loop]
    simp [List.filter_cons, isRowUpdate, ih (idx + 1)]

theorem row_loop_last_progress (exmap : List RemoteUser) (env : Env) (roleid : Int)
    (total : Nat) :
    ∀ (ps : List PRow) (idx : Nat), ps ≠ [] →
      ((row_loop exmap env roleid total idx ps).1.filterMap progressPercent).getLast? =
        some ((idx + ps.length) * 100 / max total 1) := by
  intro ps
  induction ps with
  | nil => intro idx h; exact absurd rfl h
  | cons p ps ih =>
    intro idx _
    rw [row_loop]
    simp only [List.filterMap_cons]
    rw [show progressPercent (QItem.row_update idx (process_row exmap (env.row idx) roleid p).1)
      = none from rfl]
    rw [show progressPercent (QItem.progress (idx + 1) total ((idx + 1) * 100 / max total 1))
      = some ((idx + 1) * 100 / max total 1) from rfl]
    cases hps : ps with
    | nil => simp [row_loop]
    | cons q qs =>
      have hne : ps ≠ [] := by rw [hps]; exact List.cons_ne_nil q qs
      have hih := ih (idx + 1) hne
      have hfm : ((row_loop exmap env roleid total (idx + 1) ps).1.filterMap
          progressPercent) ≠ [] := by
        intro hempty
        rw [hempty] at hih
        simp at hih
      rw [← hps, getLast?_cons_of_ne_nil _ _ hfm, hih, hps]
      simp only [List.length_cons]
      have : idx + 1 + (qs.length + 1) = idx + (qs.length + 1 + 1) := by omega
      rw [this]

theorem row_loop_status_idx (exmap : List RemoteUser) (env : Env) (roleid : Int) (total : Nat) :
    ∀ (ps : List PRow) (idx i : Nat) (p : PRow), ps.get? i = some p →
      dtruthy (dget p.1 "Status") = true →
      (row_loop exmap env roleid total idx ps).2.1.get? i = some p.1 ∧
      (row_loop exmap env roleid total idx ps).2.2.get? i = some [] := by
  intro ps
  induction ps with
  | nil => intro idx i p hi _; cases hi
  | cons q qs ih =>
    intro idx i p hi htr
    cases i with
    | zero =>
      rw [List.get?_cons_zero] at hi
      injection hi with hi
      rw [row_loop]
      have hpr : process_row exmap (env.row idx) roleid q = (p.1, []) := by
        rw [hi, process_row, if_pos htr]
      simp [hpr]
    | succ j =>
      rw [List.get?_cons_succ] at hi
      rw [row_loop]
      simp only
      rw [List.get?_cons_succ, List.get?_cons_succ]
      exact ih (idx + 1) j p hi htr

theorem reconcile_length (probe : String → ProbeResult) (fuel : Nat) :
    ∀ (ps : List PRow) (used : List String) (qs : List (PRow × List RemoteCall)),
      reconcile probe fuel ps used = some qs → qs.length = ps.length := by
  intro ps
  induction ps with
  | nil =>
    intro used qs h
    simp only [reconcile, Option.some.injEq] at h
    subst h
    rfl
  | cons p ps ih =>
    intro used qs h
    rw [reconcile] at h
    by_cases hst : dtruthy (dget p.1 "Status") = true
    · rw [if_pos hst] at h
      cases hrec : reconcile probe fuel ps used with
      | none => rw [hrec] at h; cases h
      | some rest =>
        rw [hrec] at h
        injection h with h
        subst h
        simp [ih used rest hrec]
    · rw [if_neg hst] at h
      simp only [] at h
      cases hnav : next_available_username probe (dgetD p.1 "Username" "") used fuel with
      | mk o calls =>
        rw [hnav] at h
        cases o with
        | none => cases h
        | some cn =>
          obtain ⟨cand, note⟩ := cn
          simp only [] at h
          cases hrec : reconcile probe fuel ps (cand :: used) with
          | none => rw [hrec] at h; cases h
          | some rest =>
            rw [hrec] at h
            injection h with h
            subst h
            simp [ih (cand :: used) rest hrec]

theorem reconcile_status_idx (probe : String → ProbeResult) (fuel : Nat) :
    ∀ (ps : List PRow) (used : List String) (qs : List (PRow × List RemoteCall)) (i : Nat)
      (p : PRow), reconcile probe fuel ps used = some qs → ps.get? i = some p →
      dtruthy (dget p.1 "Status") = true → qs.get? i = some (p, []) := by
  intro ps
  induction ps with
  | nil => intro used qs i p _ hi _; cases hi
  | cons q qs0 ih =>
    intro used qs i p h hi htr
    rw [reconcile] at h
    by_cases hst : dtruthy (dget q.1 "Status") = true
    · rw [if_pos hst] at h
      cases hrec : reconcile probe fuel qs0 used with
      | none => rw [hrec] at h; cases h
      | some rest =>
        rw [hrec] at h
        injection h with h
        subst h
        cases i with
        | zero =>
          rw [List.get?_cons_zero] at hi
          injection hi with hi
          subst hi
          rfl
        | succ j =>
          rw [List.get?_cons_succ] at hi
          rw [List.get?_cons_succ]
          exact ih used rest j p hrec hi htr
    · rw [if_neg hst] at h
      simp only [] at h
      cases i with
      | zero =>
        rw [List.get?_cons_zero] at hi
        injection hi with hi
        subst hi
        exact absurd htr hst
      | succ j =>
        rw [List.get?_cons_succ] at hi
        cases hnav : next_available_username probe (dgetD q.1 "Username" "") used fuel with
        | mk o calls =>
          rw [hnav] at h
          cases o with
          | none => cases h
          | some cn =>
            obtain ⟨cand, note⟩ := cn
            simp only [] at h
            cases hrec : reconcile probe fuel qs0 (cand :: used) with
            | none => rw [hrec] at h; cases h
            | some rest =>
              rw [hrec] at h
              injection h with h
              subst h
              rw [List.get?_cons_succ]
              exact ih (cand :: used) rest j p hrec hi htr

theorem reconcile_mem (probe : String → ProbeResult) (fuel : Nat) :
    ∀ (ps : List PRow) (used : List String) (qs : List (PRow × List RemoteCall)),
      reconcile probe fuel ps used = some qs →
      ∀ q ∈ qs, ∃ p ∈ ps, ∀ k, k ≠ "Username" → dget q.1.1 k = dget p.1 k := by
  intro ps
  induction ps with
  | nil =>
    intro used qs h q hq
    simp only [reconcile, Option.some.injEq] at h
    subst h
    cases hq
  | cons p ps ih =>
    intro used qs h q hq
    rw [reconcile] at h
    by_cases hst : dtruthy (dget p.1 "Status") = true
    · rw [if_pos hst] at h
      cases hrec : reconcile probe fuel ps used with
      | none => rw [hrec] at h; cases h
      | some rest =>
        rw [hrec] at h
        injection h with h
        subst h
        rcases List.mem_cons.mp hq with rfl | hq2
        · exact ⟨p, List.mem_cons_self _ _, fun k _ => rfl⟩
        · obtain ⟨p2, hp2, hk⟩ := ih used rest hrec q hq2
          exact ⟨p2, List.mem_cons_of_mem _ hp2, hk⟩
    · rw [if_neg hst] at h
      simp only [] at h
      cases hnav : next_available_username probe (dgetD p.1 "Username" "") used fuel with
      | mk o calls =>
        rw [hnav] at h
        cases o with
        | none => cases h
        | some cn =>
          obtain ⟨cand, note⟩ := cn
          simp only [] at h
          cases hrec : reconcile probe fuel ps (cand :: used) with
          | none => rw [hrec] at h; cases h
          | some rest =>
            rw [hrec] at h
            injection h with h
            subst h
            rcases List.mem_cons.mp hq with rfl | hq2
            · refine ⟨p, List.mem_cons_self _ _, ?_⟩
              intro k hk
              by_cases hcb : cand ≠ dgetD p.1 "Username" ""
              · rw [if_pos hcb]
                exact dget_dset_ne p.1 (fun hc => hk hc.symm) cand
              · rw [if_neg hcb]
            · obtain ⟨p2, hp2, hk⟩ := ih (cand :: used) rest hrec q hq2
              exact ⟨p2, List.mem_cons_of_mem _ hp2, hk⟩

theorem validate_row_email_ne (w : Dict) (h : validate_row w = none) :
    dgetD w "Email Address" "" ≠ "" := by
  intro hraw
  unfold validate_row at h
  rw [hraw] at h
  rw [if_pos (Or.inr (Or.inr (Or.inr (show pyLowerStr (pyStrip "") = "" from rfl))))] at h
  cases h

theorem dtruthy_some_ne {v : String} (hv : v ≠ "") : dtruthy (some v) = true := by
  unfold dtruthy
  simp only [Option.getD_some]
  exact bne_iff_ne.mpr hv

/-- The `Status` a row gets in the preparation loop when its e-mail field
is empty. -/
theorem prep_row_empty_email (u : Dict) (hem : dgetD u "Email Address" "" = "") :
    dget (prep_row u).1 "Status" =
      some ("‚ùå Client-side validation: " ++ "Missing required field(s)") ∧
    dtruthy (dget (prep_row u).1 "Status") = true := by
  unfold prep_row
  simp only []
  set u1 := dset u "Username" (pyLowerStr (dgetD u "Username" "")) with hu1
  set u2 := dset u1 "Enrol Status" (dgetD u1 "Enrol Status" "") with hu2
  set u3 := dset u2 "Suspend Status" (dgetD u2 "Suspend Status" "") with hu3
  have h3 : dgetD u3 "Email Address" "" = "" := by
    rw [hu3, hu2, hu1]
    unfold dgetD
    rw [dget_dset_ne _ (by decide) _, dget_dset_ne _ (by decide) _, dget_dset_ne _ (by decide) _]
    exact hem
  have hv : validate_row u3 = some "Missing required field(s)" := by
    unfold validate_row
    simp only []
    rw [h3]
    rw [if_pos (Or.inr (Or.inr (Or.inr (show pyLowerStr (pyStrip "") = "" from rfl))))]
  rw [hv]
  simp only []
  simp only [dget_dset_same]
  refine ⟨trivial, dtruthy_some_ne ?_⟩
  exact str_append_ne_empty _ _ (by decide)

/-- A row the preparation loop leaves status-free passed validation, so its
e-mail field is non-empty. -/
theorem prep_row_status_free_email (u : Dict)
    (h : dtruthy (dget (prep_row u).1 "Status") = false) :
    dgetD (prep_row u).1 "Email Address" "" ≠ "" := by
  unfold prep_row at h ⊢
  simp only [] at h ⊢
  set u1 := dset u "Username" (pyLowerStr (dgetD u "Username" "")) with hu1
  set u2 := dset u1 "Enrol Status" (dgetD u1 "Enrol Status" "") with hu2
  set u3 := dset u2 "Suspend Status" (dgetD u2 "Suspend Status" "") with hu3
  cases hv : validate_row u3 with
  | none =>
    rw [hv] at h
    simp only [] at h ⊢
    exact validate_row_email_ne u3 hv
  | some err =>
    rw [hv] at h
    simp only [dget_dset_same] at h
    rw [dtruthy_some_ne (str_append_ne_empty _ _ (by decide))] at h
    cases h

/-- No e-mail handed to the prefetch is empty: the prefetch only collects
e-mails of rows that passed validation. -/
theorem process_job_emails_ne (env : Env) (roleid : Int) (fuel : Nat) (rows : List Dict)
    (es : List String) (hes : (process_job env roleid fuel rows).emailsChecked = some es) :
    "" ∉ es := by
  unfold process_job at hes
  simp only [] at hes
  cases hrec : reconcile env.probe fuel (rows.map prep_row) [] with
  | none => rw [hrec] at hes; cases hes
  | some rcs =>
    rw [hrec] at hes
    simp only [Option.some.injEq] at hes
    intro hmem
    rw [← hes] at hmem
    obtain ⟨p, hp, hpe⟩ := List.mem_map.mp hmem
    have hpfilter := List.mem_filter.mp hp
    have hpfree : dtruthy (dget p.1 "Status") = false := by
      have := hpfilter.2
      cases hd : dtruthy (dget p.1 "Status")
      · rfl
      · rw [hd] at this; cases this
    obtain ⟨q, hq, hq1⟩ := List.mem_map.mp hpfilter.1
    obtain ⟨pr, hpr, hkeys⟩ := reconcile_mem env.probe fuel (rows.map prep_row) [] rcs hrec q hq
    obtain ⟨u0, _, hu0⟩ := List.mem_map.mp hpr
    have hstat : dget pr.1 "Status" = dget p.1 "Status" := by
      rw [← hq1]; exact (hkeys "Status" (by decide)).symm
    have hemail : dget pr.1 "Email Address" = dget p.1 "Email Address" := by
      rw [← hq1]; exact (hkeys "Email Address" (by decide)).symm
    have hprfree : dtruthy (dget (prep_row u0).1 "Status") = false := by
      rw [hu0, hstat]; exact hpfree
    have hne := prep_row_status_free_email u0 hprfree
    apply hne
    unfold dgetD
    rw [← hu0] at hemail
    rw [hemail]
    exact hpe

/-! ## Claim C2 -/

theorem isRowUpdate_stage (n : Nat) : isRowUpdate (QItem.stage n) = false := rfl

theorem isRowUpdate_done (a b : Nat) : isRowUpdate (QItem.done a b) = false := rfl

theorem isRowUpdate_sentinel : isRowUpdate QItem.sentinel = false := rfl

theorem progressPercent_stage (n : Nat) : progressPercent (QItem.stage n) = none := rfl

theorem progressPercent_done (a b : Nat) : progressPercent (QItem.done a b) = none := rfl

theorem progressPercent_sentinel : progressPercent QItem.sentinel = none := rfl

/-- C2 (amended): whenever `_process_job` runs to completion (its result is
produced — in particular the reconciliation loops terminated), the event
stream carries exactly one `row_update` per input row, ends with the `done`
event (followed only by the closing sentinel comment) after all row events,
and — for a non-empty batch — its final `progress` event reports 100
percent.  This holds for every remote environment, in particular when every
row's processing fails. -/
theorem C2_job_stream (env : Env) (roleid : Int) (fuel : Nat) (rows : List Dict)
    (h : (process_job env roleid fuel rows).result.isSome = true) :
    ((process_job env roleid fuel rows).events.filter isRowUpdate).length = rows.length ∧
    (∃ pre, (process_job env roleid fuel rows).events =
      pre ++ [QItem.done 100 rows.length, QItem.sentinel]) ∧
    (rows ≠ [] → lastProgress (process_job env roleid fuel rows).events = some 100) := by
  unfold process_job at h ⊢
  simp only [] at h ⊢
  cases hrec : reconcile env.probe fuel (rows.map prep_row) [] with
  | none => rw [hrec] at h; cases h
  | some rcs =>
    rw [hrec] at h
    simp only [] at h ⊢
    have hlen : (List.map (fun x : PRow × List RemoteCall => x.1) rcs).length = rows.length := by
      rw [List.length_map,
        reconcile_length env.probe fuel (rows.map prep_row) [] rcs hrec, List.length_map]
    rw [hlen]
    refine ⟨?_, ?_, ?_⟩
    · simp only [List.filter_cons, isRowUpdate_stage, Bool.false_eq_true, if_false,
        List.filter_append, isRowUpdate_done, isRowUpdate_sentinel, List.filter_nil,
        List.append_nil]
      rw [← hlen]
      exact row_loop_count (prefetch_users env.prefetch) env roleid
        (List.map (fun x => x.1) rcs).length (List.map (fun x => x.1) rcs) 0
    · exact ⟨_, (List.cons_append _ _ _).symm⟩
    · intro hne
      have hne1 : List.map (fun x : PRow × List RemoteCall => x.1) rcs ≠ [] := by
        intro hcontra
        apply hne
        have hl2 := hlen
        rw [hcontra] at hl2
        cases rows with
        | nil => rfl
        | cons a as => cases hl2
      unfold lastProgress
      simp only [List.filterMap_cons, progressPercent_stage, List.filterMap_append,
        progressPercent_done, progressPercent_sentinel, List.filterMap_nil, List.append_nil]
      rw [row_loop_last_progress (prefetch_users env.prefetch) env roleid
        rows.length (List.map (fun x => x.1) rcs) 0 hne1]
      have hpos : 0 < rows.length := by
        cases rows with
        | nil => exact absurd rfl hne
        | cons a as => simp
      rw [Nat.zero_add, hlen, Nat.max_eq_left hpos]
      rw [Nat.mul_comm, Nat.mul_div_cancel 100 hpos]

/-- An environment with no existing accounts (every probe answers the empty
list, the prefetch is empty) in which every creation attempt fails with a
transport error. -/
def freeJobEnv : Env :=
  { probe := fun _ => ProbeResult.list [], prefetch := PrefetchResp.list [],
    row := fun _ => failCreateRowEnv }

/-- Witness: a concrete completed run (one row, creation failing) for
`C2_job_stream`. -/
theorem C2_job_stream_witness :
    (process_job freeJobEnv 5 5 [rowAnn]).result.isSome = true ∧
    (((process_job freeJobEnv 5 5 [rowAnn]).events.filter isRowUpdate).length = 1 ∧
      (∃ pre, (process_job freeJobEnv 5 5 [rowAnn]).events =
        pre ++ [QItem.done 100 1, QItem.sentinel]) ∧
      ([rowAnn] ≠ ([] : List Dict) →
        lastProgress (process_job freeJobEnv 5 5 [rowAnn]).events = some 100)) :=
  ⟨by decide, C2_job_stream freeJobEnv 5 5 [rowAnn] (by decide)⟩

/-- An environment in which every probed username is reported as existing. -/
def allTakenEnv : Env :=
  { probe := fun q => ProbeResult.list [JEntry.urec (some q)],
    prefetch := PrefetchResp.list [], row := fun _ => failCreateRowEnv }

theorem allTakenEnv_blocked (c : String) :
    moodle_username_exists c (allTakenEnv.probe c) = true := by
  unfold allTakenEnv moodle_username_exists users_by_field_result scanUname
  rw [if_pos (show pyLowerStr ((some c).getD "") = pyLowerStr c from rfl)]

/-- With every username taken, the reconciliation loop never finds a free
candidate: for every fuel bound the job produces no events and no result
(the real loop runs forever before any event is emitted). -/
theorem process_job_allTaken (fuel : Nat) :
    process_job allTakenEnv 5 fuel [rowAnn] =
      { events := [], result := none, recCalls := none, emailsChecked := none,
        rowCalls := none } := by
  have hnav : ∀ s, (nav_loop (fun c => moodle_username_exists c (allTakenEnv.probe c))
      "ann" [] fuel s).1 = none := by
    intro s
    apply nav_loop_none
    intro n hfree
    have h2 := hfree.2
    simp only [allTakenEnv_blocked] at h2
    cases h2
  have hrec : reconcile allTakenEnv.probe fuel (List.map prep_row [rowAnn]) [] = none := by
    rw [show List.map prep_row [rowAnn] = [prep_row rowAnn] from rfl]
    rw [reconcile]
    rw [if_neg (by decide)]
    simp only []
    rw [show dgetD (prep_row rowAnn).1 "Username" "" = "ann" from by decide]
    cases hcall : next_available_username allTakenEnv.probe "ann" [] fuel with
    | mk fst snd =>
      have hfst : fst = none := by
        have hn := hnav 0
        rw [show next_available_username allTakenEnv.probe "ann" [] fuel =
          nav_loop (fun c => moodle_username_exists c (allTakenEnv.probe c)) "ann" [] fuel 0
          from rfl] at hcall
        rw [hcall] at hn
        exact hn
      subst hfst
      simp only []
  unfold process_job
  simp only []
  rw [hrec]

/-- C2 counterexample: against a remote answering every username probe
"exists", the username reconciliation searches candidates forever, so the
job emits no events at all — no `row_update`, no `progress`, and never a
`done` event — refuting the unconditional claim; shown here at iteration
bound 50 (and `process_job_allTaken` shows it for every bound). -/
theorem C2_counterexample :
    (process_job allTakenEnv 5 50 [rowAnn]).events = [] ∧
    (process_job allTakenEnv 5 50 [rowAnn]).result = none := by
  rw [process_job_allTaken 50]
  exact ⟨rfl, rfl⟩

/-! ## Claim C5 -/

/-- The field projections of a completed job run. -/
theorem process_job_proj (env : Env) (roleid : Int) (fuel : Nat) (rows : List Dict)
    (rcs : List (PRow × List RemoteCall))
    (hrec : reconcile env.probe fuel (rows.map prep_row) [] = some rcs) :
    (process_job env roleid fuel rows).result =
      some (row_loop (prefetch_users env.prefetch) env roleid
        (List.map (fun x => x.1) rcs).length 0 (List.map (fun x => x.1) rcs)).2.1 ∧
    (process_job env roleid fuel rows).rowCalls =
      some (row_loop (prefetch_users env.prefetch) env roleid
        (List.map (fun x => x.1) rcs).length 0 (List.map (fun x => x.1) rcs)).2.2 ∧
    (process_job env roleid fuel rows).recCalls = some (List.map (fun x => x.2) rcs) := by
  unfold process_job
  simp only []
  rw [hrec]
  simp only []
  exact ⟨trivial, trivial, trivial⟩

def rowEmptyEmail : Dict :=
  [("Username", "ann"), ("First Name", "A"), ("Last Name", "B"), ("Email Address", "")]

/-- C5 counterexample: the terminal status an empty-e-mail row actually
receives is the validation message behind the client-side-validation
prefix, not the bare string the claim states. -/
theorem C5_counterexample :
    (process_job freeJobEnv 5 5 [rowEmptyEmail]).result =
      some [(prep_row rowEmptyEmail).1] ∧
    dget (prep_row rowEmptyEmail).1 "Status" =
      some ("‚ùå Client-side validation: " ++ "Missing required field(s)") ∧
    dget (prep_row rowEmptyEmail).1 "Status" ≠ some "Missing required field(s)" := by
  decide

/-- C5 (amended): a row with an empty e-mail field is marked terminal
during preparation with the validation message "Missing required field(s)"
behind the client-side-validation prefix, is passed through the rest of
the pipeline untouched (the output row at its index is exactly the
prepared row), no remote call is made for it in either the reconciliation
pass or the row loop, and its (empty) e-mail is excluded from the prefetch
query. -/
theorem C5_empty_email (env : Env) (roleid : Int) (fuel : Nat) (rows : List Dict)
    (i : Nat) (u : Dict) (out : List Dict)
    (hi : rows.get? i = some u)
    (hem : dgetD u "Email Address" "" = "")
    (hres : (process_job env roleid fuel rows).result = some out) :
    out.get? i = some (prep_row u).1 ∧
    dget (prep_row u).1 "Status" =
      some ("‚ùå Client-side validation: " ++ "Missing required field(s)") ∧
    (∃ rcs, (process_job env roleid fuel rows).rowCalls = some rcs ∧ rcs.get? i = some []) ∧
    (∃ pcs, (process_job env roleid fuel rows).recCalls = some pcs ∧ pcs.get? i = some []) ∧
    (∀ es, (process_job env roleid fuel rows).emailsChecked = some es → "" ∉ es) := by
  have hprep := prep_row_empty_email u hem
  cases hrec : reconcile env.probe fuel (rows.map prep_row) [] with
  | none =>
    exfalso
    rw [show (process_job env roleid fuel rows) =
      { events := [], result := none, recCalls := none, emailsChecked := none,
        rowCalls := none } from by unfold process_job; simp only []; rw [hrec]] at hres
    cases hres
  | some rcs =>
    obtain ⟨hres2, hrowc, hrecc⟩ := process_job_proj env roleid fuel rows rcs hrec
    have hmap : (rows.map prep_row).get? i = some (prep_row u) := by
      rw [List.get?_map, hi]
      rfl
    have hq : rcs.get? i = some (prep_row u, []) :=
      reconcile_status_idx env.probe fuel (rows.map prep_row) [] rcs i (prep_row u)
        hrec hmap hprep.2
    have hget1 : (List.map (fun x : PRow × List RemoteCall => x.1) rcs).get? i =
        some (prep_row u) := by
      rw [List.get?_map, hq]
      rfl
    have hrl := row_loop_status_idx (prefetch_users env.prefetch) env roleid
      (List.map (fun x : PRow × List RemoteCall => x.1) rcs).length
      (List.map (fun x => x.1) rcs) 0 i (prep_row u) hget1 hprep.2
    rw [hres2] at hres
    simp only [Option.some.injEq] at hres
    refine ⟨?_, hprep.1, ?_, ?_, fun es hes => process_job_emails_ne env roleid fuel rows es hes⟩
    · rw [← hres]
      exact hrl.1
    · exact ⟨_, hrowc, hrl.2⟩
    · refine ⟨_, hrecc, ?_⟩
      rw [List.get?_map, hq]
      rfl

/-- Witness for `C5_empty_email` at a concrete one-row job. -/
theorem C5_empty_email_witness :
    dgetD rowEmptyEmail "Email Address" "" = "" ∧
    ([(prep_row rowEmptyEmail).1].get? 0 = some (prep_row rowEmptyEmail).1 ∧
      dget (prep_row rowEmptyEmail).1 "Status" =
        some ("‚ùå Client-side validation: " ++ "Missing required field(s)") ∧
      (∃ rcs, (process_job freeJobEnv 5 5 [rowEmptyEmail]).rowCalls = some rcs ∧
        rcs.get? 0 = some []) ∧
      (∃ pcs, (process_job freeJobEnv 5 5 [rowEmptyEmail]).recCalls = some pcs ∧
        pcs.get? 0 = some []) ∧
      (∀ es, (process_job freeJobEnv 5 5 [rowEmptyEmail]).emailsChecked = some es →
        "" ∉ es)) :=
  ⟨by decide, C5_empty_email freeJobEnv 5 5 [rowEmptyEmail] 0 rowEmptyEmail
    [(prep_row rowEmptyEmail).1] (by decide) (by decide) (by decide)⟩

/-! ## Claim C9: the CSV round trip -/

theorem takeWhile_all (p : Char → Bool) :
    ∀ (l1 l2 : List Char), (∀ c ∈ l1, p c = true) →
      (l1 ++ l2).takeWhile p = l1 ++ l2.takeWhile p := by
  intro l1
  induction l1 with
  | nil => intro l2 h; rfl
  | cons c l1 ih =>
    intro l2 h
    rw [List.cons_append, List.takeWhile_cons, h c (List.mem_cons_self c l1), if_pos rfl,
      ih l2 (fun d hd => h d (List.mem_cons_of_mem c hd)), List.cons_append]

theorem dropWhile_all (p : Char → Bool) :
    ∀ (l1 l2 : List Char), (∀ c ∈ l1, p c = true) →
      (l1 ++ l2).dropWhile p = l2.dropWhile p := by
  intro l1
  induction l1 with
  | nil => intro l2 h; rfl
  | cons c l1 ih =>
    intro l2 h
    rw [List.cons_append, List.dropWhile_cons, h c (List.mem_cons_self c l1), if_pos rfl,
      ih l2 (fun d hd => h d (List.mem_cons_of_mem c hd))]

/-- Undoubling a quote-escaped field body recovers the original field:
`parseQuoted` after the opening quote stops at the closing quote. -/
theorem parseQuoted_round (v : List Char) :
    ∀ (rest : List Char), rest.head? ≠ some dq →
      parseQuoted (csvEscape v ++ dq :: rest) = (v, rest) := by
  induction v with
  | nil =>
    intro rest h
    cases rest with
    | nil => rfl
    | cons c2 r2 =>
      have hc2 : c2 ≠ dq := by
        intro he
        exact h (by rw [he]; rfl)
      show (if c2 = dq then (dq :: (parseQuoted r2).1, (parseQuoted r2).2)
        else ([], c2 :: r2)) = ([], c2 :: r2)
      rw [if_neg hc2]
  | cons a v ih =>
    intro rest h
    by_cases ha : a = dq
    · subst ha
      show (dq :: (parseQuoted (csvEscape v ++ dq :: rest)).1,
        (parseQuoted (csvEscape v ++ dq :: rest)).2) = (dq :: v, rest)
      rw [ih rest h]
    · rw [show csvEscape (a :: v) ++ dq :: rest
        = (if a = dq then [dq, dq] else [a]) ++ (csvEscape v ++ dq :: rest) from by
          rw [show csvEscape (a :: v)
            = (if a = dq then [dq, dq] else [a]) ++ csvEscape v from rfl, List.append_assoc]]
      rw [if_neg ha, List.singleton_append]
      rw [parseQuoted.eq_def]
      simp only []
      rw [if_neg ha]
      rw [ih rest h]

/-- A serialised field followed by a field terminator parses back to the
field value. -/
theorem parseField_round (f : String) (rest : List Char)
    (hrest : rest = [] ∨ rest.head? = some ',' ∨ rest.head? = some CR) :
    parseField ((csvField f).data ++ rest) = (f.data, rest) := by
  have hrestdq : rest.head? ≠ some dq := by
    rcases hrest with h | h | h
    · rw [h]; intro hc; cases hc
    · rw [h]; intro hc; injection hc with hc2; exact absurd hc2.symm (by decide)
    · rw [h]; intro hc; injection hc with hc2; exact absurd hc2.symm (by decide)
  unfold csvField
  cases hq : csvNeedsQuote f with
  | true =>
    rw [if_pos rfl]
    rw [show ((⟨dq :: (csvEscape f.data ++ [dq])⟩ : String).data ++ rest)
      = dq :: ((csvEscape f.data ++ [dq]) ++ rest) from rfl, List.append_assoc]
    show parseQuoted (csvEscape f.data ++ dq :: rest) = (f.data, rest)
    exact parseQuoted_round f.data rest hrestdq
  | false =>
    rw [if_neg (by decide : ¬ (false = true))]
    have hall : ∀ c ∈ f.data, (c = ',' || c = dq || c = CR || c = LF) = false := by
      intro c hc
      by_contra hb
      have hx : csvNeedsQuote f = true := by
        unfold csvNeedsQuote
        rw [List.any_eq_true]
        refine ⟨c, hc, ?_⟩
        cases hcc : (c = ',' || c = dq || c = CR || c = LF : Bool) with
        | true => rfl
        | false => exact absurd hcc hb
      rw [hq] at hx
      cases hx
    have hnodq : ∀ c ∈ f.data, c ≠ dq := by
      intro c hc he
      have hz := hall c hc
      simp only [Bool.or_eq_false_iff, decide_eq_false_iff_not] at hz
      tauto
    have hfree : ∀ c ∈ f.data, (!isFieldEnd c) = true := by
      intro c hc
      have hz := hall c hc
      unfold isFieldEnd
      rw [Bool.not_eq_true']
      simp only [Bool.or_eq_false_iff, decide_eq_false_iff_not] at hz ⊢
      tauto
    have hrw : rest.takeWhile (fun c => !isFieldEnd c) = [] ∧
        rest.dropWhile (fun c => !isFieldEnd c) = rest := by
      rcases hrest with h | h | h
      · rw [h]; exact ⟨rfl, rfl⟩
      · cases rest with
        | nil => cases h
        | cons c r =>
          injection h with h2
          rw [List.takeWhile_cons, List.dropWhile_cons]
          rw [show (!isFieldEnd c) = false from by rw [h2]; rfl]
          simp only [Bool.false_eq_true, if_false]
          exact ⟨trivial, trivial⟩
      · cases rest with
        | nil => cases h
        | cons c r =>
          injection h with h2
          rw [List.takeWhile_cons, List.dropWhile_cons]
          rw [show (!isFieldEnd c) = false from by rw [h2]; rfl]
          simp only [Bool.false_eq_true, if_false]
          exact ⟨trivial, trivial⟩
    cases hfd : f.data with
    | nil =>
      rcases hrest with h | h | h
      · rw [h]; rfl
      · cases rest with
        | nil => cases h
        | cons c r =>
          injection h with h2
          have hcd : c ≠ dq := by rw [h2]; decide
          show (if c = dq then parseQuoted r
            else ((c :: r).takeWhile (fun x => !isFieldEnd x),
              (c :: r).dropWhile (fun x => !isFieldEnd x))) = ([], c :: r)
          rw [if_neg hcd]
          rw [List.takeWhile_cons, List.dropWhile_cons]
          rw [show (!isFieldEnd c) = false from by rw [h2]; rfl]
          simp only [Bool.false_eq_true, if_false]
      · cases rest with
        | nil => cases h
        | cons c r =>
          injection h with h2
          have hcd : c ≠ dq := by rw [h2]; decide
          show (if c = dq then parseQuoted r
            else ((c :: r).takeWhile (fun x => !isFieldEnd x),
              (c :: r).dropWhile (fun x => !isFieldEnd x))) = ([], c :: r)
          rw [if_neg hcd]
          rw [List.takeWhile_cons, List.dropWhile_cons]
          rw [show (!isFieldEnd c) = false from by rw [h2]; rfl]
          simp only [Bool.false_eq_true, if_false]
    | cons c0 fr =>
      have hc0 : c0 ≠ dq := hnodq c0 (by rw [hfd]; exact List.mem_cons_self c0 fr)
      rw [List.cons_append]
      show (if c0 = dq then parseQuoted (fr ++ rest)
        else ((c0 :: (fr ++ rest)).takeWhile (fun x => !isFieldEnd x),
          (c0 :: (fr ++ rest)).dropWhile (fun x => !isFieldEnd x))) = (c0 :: fr, rest)
      rw [if_neg hc0]
      rw [← List.cons_append, ← hfd]
      rw [takeWhile_all (fun c => !isFieldEnd c) f.data rest hfree,
        dropWhile_all (fun c => !isFieldEnd c) f.data rest hfree]
      rw [hrw.1, hrw.2, List.append_nil]

/-- A serialised record followed by further document text parses back to
its field list, consuming exactly the record (including its CRLF). -/
theorem parseRecordAux_round :
    ∀ (fields : List String) (rest : List Char) (fuel : Nat),
      fields ≠ [] → fields.length ≤ fuel →
      parseRecordAux fuel (csvLineChars fields ++ rest) = (fields, rest) := by
  intro fields
  induction fields with
  | nil => intro rest fuel h _; exact absurd rfl h
  | cons f gs ih =>
    intro rest fuel _ hfuel
    cases fuel with
    | zero => exact absurd hfuel (by simp)
    | succ fu =>
      cases gs with
      | nil =>
        rw [show csvLineChars [f] = (csvField f).data ++ [CR, LF] from rfl]
        rw [List.append_assoc]
        rw [show ([CR, LF] : List Char) ++ rest = CR :: LF :: rest from rfl]
        rw [parseRecordAux]
        simp only []
        rw [parseField_round f (CR :: LF :: rest) (Or.inr (Or.inr rfl))]
        simp only []
        rw [if_pos trivial, if_pos trivial]
        rw [if_neg (by decide : ¬ (CR = ','))]
      | cons g gs2 =>
        rw [show csvLineChars (f :: g :: gs2)
          = (csvField f).data ++ ',' :: csvLineChars (g :: gs2) from rfl]
        rw [List.append_assoc]
        rw [show (',' :: csvLineChars (g :: gs2)) ++ rest
          = ',' :: (csvLineChars (g :: gs2) ++ rest) from rfl]
        rw [parseRecordAux]
        simp only []
        rw [parseField_round f (',' :: (csvLineChars (g :: gs2) ++ rest))
          (Or.inr (Or.inl rfl))]
        simp only []
        rw [if_pos trivial]
        rw [ih rest fu (by simp)
          (by simp only [List.length_cons] at hfuel ⊢; omega)]

/-- Every serialised record is at least as long (in characters) as its
field count, and non-empty. -/
theorem csvLineChars_len :
    ∀ (fs : List String), fs.length ≤ (csvLineChars fs).length ∧
      1 ≤ (csvLineChars fs).length := by
  intro fs
  induction fs with
  | nil => exact ⟨by decide, by decide⟩
  | cons f rest ih =>
    cases rest with
    | nil =>
      rw [show csvLineChars [f] = (csvField f).data ++ [CR, LF] from rfl]
      simp only [List.length_append, List.length_cons, List.length_nil]
      omega
    | cons g gs =>
      rw [show csvLineChars (f :: g :: gs)
        = (csvField f).data ++ ',' :: csvLineChars (g :: gs) from rfl]
      have h1 := ih.1
      have h2 := ih.2
      simp only [List.length_append, List.length_cons] at h1 h2 ⊢
      omega

/-- A concatenated document is at least as long as its record count. -/
theorem flattenRecords_len :
    ∀ (records : List (List String)),
      records.length ≤ ((records.map csvLineChars).flatten).length := by
  intro records
  induction records with
  | nil => exact Nat.le_refl 0
  | cons fs rs ih =>
    rw [List.map_cons, List.flatten_cons]
    have h2 := (csvLineChars_len fs).2
    simp only [List.length_append, List.length_cons]
    omega

/-- Parsing a concatenation of serialised records recovers the records. -/
theorem parseCsvAux_round :
    ∀ (records : List (List String)), (∀ r ∈ records, r ≠ []) →
      ∀ fuel, records.length ≤ fuel →
        parseCsvAux fuel ((records.map csvLineChars).flatten) = records := by
  intro records
  induction records with
  | nil =>
    intro _ fuel _
    cases fuel with
    | zero => rfl
    | succ fu => rfl
  | cons fs rs ih =>
    intro hne fuel hfuel
    cases fuel with
    | zero => exact absurd hfuel (by simp)
    | succ fu =>
      rw [List.map_cons, List.flatten_cons]
      cases hl : csvLineChars fs with
      | nil =>
        have h2 := (csvLineChars_len fs).2
        rw [hl] at h2
        cases h2
      | cons c tail =>
        rw [List.cons_append]
        rw [parseCsvAux]
        rw [← List.cons_append, ← hl]
        have hfb : fs.length ≤ (csvLineChars fs ++ (rs.map csvLineChars).flatten).length + 1 := by
          have h1 := (csvLineChars_len fs).1
          simp only [List.length_append]
          omega
        rw [parseRecordAux_round fs ((rs.map csvLineChars).flatten)
          ((csvLineChars fs ++ (rs.map csvLineChars).flatten).length + 1)
          (hne fs (List.mem_cons_self fs rs)) hfb]
        simp only []
        rw [ih (fun r hr => hne r (List.mem_cons_of_mem _ hr)) fu
          (by simp only [List.length_cons] at hfuel; omega)]

/-- C9: the downloaded CSV document starts with a byte-order mark, its
header row lists exactly the fourteen fixed columns in order, and
re-parsing the document (after stripping the BOM) reproduces every field
of every record. -/
theorem C9_csv_roundtrip (rows : List Dict) (h : rows ≠ []) :
    (rows_to_csv_text rows).data.head? = some bomChar ∧
    parseCsv (stripBom (rows_to_csv_text rows)) =
      ["First Name", "Last Name", "Email Address", "Username", "Password",
       "Course IDs", "Status", "Enrol Status", "Suspend Status",
       "Existing First Name", "Existing Last Name", "Existing Username",
       "Existing Email", "Existing ID"] ::
      rows.map (fun r => FIELDNAMES.map (fun f => dgetD r f "")) := by
  constructor
  · rfl
  · rw [show stripBom (rows_to_csv_text rows) =
      (⟨csvLineChars FIELDNAMES ++
        (rows.map (fun r => csvLineChars (rowFields r))).flatten⟩ : String) from rfl]
    unfold parseCsv
    rw [show ((⟨csvLineChars FIELDNAMES ++
      (rows.map (fun r => csvLineChars (rowFields r))).flatten⟩ : String)).data =
      csvLineChars FIELDNAMES ++
        (rows.map (fun r => csvLineChars (rowFields r))).flatten from rfl]
    have hsplit : csvLineChars FIELDNAMES ++
        (rows.map (fun r => csvLineChars (rowFields r))).flatten =
        (((FIELDNAMES :: rows.map rowFields).map csvLineChars)).flatten := by
      rw [List.map_cons, List.flatten_cons, List.map_map]
      rfl
    rw [hsplit]
    have hne : ∀ r ∈ FIELDNAMES :: rows.map rowFields, r ≠ [] := by
      intro r hr
      rcases List.mem_cons.mp hr with h1 | h2
      · rw [h1]; decide
      · obtain ⟨x, _, hx⟩ := List.mem_map.mp h2
        rw [← hx]
        unfold rowFields
        intro hcon
        have := congrArg List.length hcon
        rw [List.length_map] at this
        cases this
    have hfl := flattenRecords_len (FIELDNAMES :: rows.map rowFields)
    exact parseCsvAux_round (FIELDNAMES :: rows.map rowFields) hne
      ((((FIELDNAMES :: rows.map rowFields).map csvLineChars)).flatten.length + 1)
      (by omega)

/-- Witness for `C9_csv_roundtrip` on a one-row table. -/
theorem C9_csv_roundtrip_witness :
    ([rowAnn] ≠ ([] : List Dict)) ∧
    ((rows_to_csv_text [rowAnn]).data.head? = some bomChar ∧
      parseCsv (stripBom (rows_to_csv_text [rowAnn])) =
        ["First Name", "Last Name", "Email Address", "Username", "Password",
         "Course IDs", "Status", "Enrol Status", "Suspend Status",
         "Existing First Name", "Existing Last Name", "Existing Username",
         "Existing Email", "Existing ID"] ::
        [rowAnn].map (fun r => FIELDNAMES.map (fun f => dgetD r f ""))) :=
  ⟨by decide, C9_csv_roundtrip [rowAnn] (by decide)⟩

end App
